import Mathlib

/-!
# Verification of the paperless-postprocessing maintenance scripts

Shallow embedding of the repository's Python scripts
(`src/utils/api_helpers.py`, `src/ocr_tax_relief_checker.py`,
`src/merge_duplicates.py`, `src/post.py`) together with proofs of the
spec's testable properties.

The remote REST API is modelled by an explicit server state (tags and
documents); HTTP requests become pure state transitions, HTTP failures are
explicit `Except` errors, and Python exceptions are explicit outcomes.
Machine integers are modelled by `Nat`/`Int` (no overflow is relevant to
these scripts) and Python `float` arithmetic on short decimal strings is
modelled exactly by `ℚ`.
-/

namespace Paperless

/-! ## Python string primitives (ASCII model) -/

/-- ASCII lower-casing of one character, as performed by `str.lower()`
on the ASCII range. -/
def lowerAscii (c : Char) : Char :=
  if 65 ≤ c.toNat && c.toNat ≤ 90 then Char.ofNat (c.toNat + 32) else c

/-- ASCII upper-casing of one character, as performed by `str.upper()`
on the ASCII range. -/
def upperAscii (c : Char) : Char :=
  if 97 ≤ c.toNat && c.toNat ≤ 122 then Char.ofNat (c.toNat - 32) else c

/-- ASCII letter test (Python "cased character" on the ASCII range). -/
def isAlphaAscii (c : Char) : Bool :=
  (65 ≤ c.toNat && c.toNat ≤ 90) || (97 ≤ c.toNat && c.toNat ≤ 122)

/-- `str.lower()`. -/
def pyLower (s : String) : String := ⟨s.data.map lowerAscii⟩

/-- The whitespace characters removed by Python `str.strip()`. -/
def pyIsSpace (c : Char) : Bool :=
  c = ' ' || c = '\t' || c = '\n' || c = '\r' || c = Char.ofNat 11 || c = Char.ofNat 12

/-- Remove the characters satisfying `p` from both ends of a list. -/
def stripEnds (p : Char → Bool) (l : List Char) : List Char :=
  ((l.dropWhile p).reverse.dropWhile p).reverse

/-- `str.strip()` (no-argument form). -/
def pyStrip (s : String) : String := ⟨stripEnds pyIsSpace s.data⟩

/-- The normalization `name.lower().strip()` used by `fetch_or_create_tag`. -/
def normName (s : String) : String := pyStrip (pyLower s)

/-! ## Python dict model

A Python `dict` is an insertion-ordered association list with unique keys:
assigning to a present key updates its value in place, assigning to an
absent key appends it. -/

/-- Python dict assignment `d[k] = v`. -/
def pyDictInsert {β : Type} (d : List (String × β)) (k : String) (v : β) :
    List (String × β) :=
  if d.any (fun p => p.1 == k) then
    d.map (fun p => if p.1 == k then (k, v) else p)
  else d ++ [(k, v)]

/-- A Python dict comprehension over `l` (later pairs overwrite earlier
values, key order is first-occurrence order). -/
def pyDict {β : Type} (l : List (String × β)) : List (String × β) :=
  l.foldl (fun d p => pyDictInsert d p.1 p.2) []

/-- Python `d.get(k)`. -/
def pyGet {β : Type} (d : List (String × β)) (k : String) : Option β :=
  (d.find? (fun p => p.1 == k)).map (fun p => p.2)

/-! Basic facts about the dict model. -/

theorem pyGet_eq_none_iff {β : Type} (d : List (String × β)) (k : String) :
    pyGet d k = none ↔ ∀ p ∈ d, p.1 ≠ k := by
  unfold pyGet
  constructor
  · intro h p hp
    cases hfind : d.find? (fun p => p.1 == k) with
    | none =>
      have := List.find?_eq_none.mp hfind p hp
      simpa using this
    | some q => rw [hfind] at h; simp at h
  · intro h
    have : d.find? (fun p => p.1 == k) = none :=
      List.find?_eq_none.mpr (fun p hp => by simpa using h p hp)
    rw [this]; rfl

theorem mem_pyDictInsert {β : Type} {d : List (String × β)} {k : String} {v : β}
    {p : String × β} (hp : p ∈ pyDictInsert d k v) : p ∈ d ∨ p = (k, v) := by
  unfold pyDictInsert at hp
  split at hp
  · rcases List.mem_map.mp hp with ⟨q, hq, hqe⟩
    by_cases hk : q.1 == k
    · right; rw [← hqe]; simp [hk]
    · left; rw [← hqe]; simpa [hk] using hq
  · rcases List.mem_append.mp hp with h | h
    · exact Or.inl h
    · right; simpa using h

theorem key_mem_pyDictInsert {β : Type} {d : List (String × β)} {k : String}
    {v : β} {a : String} :
    a ∈ (pyDictInsert d k v).map (fun p => p.1) ↔
      a ∈ d.map (fun p => p.1) ∨ a = k := by
  unfold pyDictInsert
  split
  · next h =>
    constructor
    · intro ha
      rcases List.mem_map.mp ha with ⟨q, hq, hqe⟩
      rcases List.mem_map.mp hq with ⟨r, hr, hre⟩
      by_cases hk : r.1 == k
      · right; rw [← hqe, ← hre]; simp [hk]
      · left; rw [← hqe, ← hre]; simp only [hk]
        exact List.mem_map.mpr ⟨r, hr, by simp [hk]⟩
    · intro ha
      rcases ha with ha | ha
      · rcases List.mem_map.mp ha with ⟨r, hr, hre⟩
        by_cases hk : r.1 == k
        · refine List.mem_map.mpr ⟨(k, v), List.mem_map.mpr ⟨r, hr, by simp [hk]⟩, ?_⟩
          have : r.1 = k := by simpa using hk
          simp [← hre, this]
        · exact List.mem_map.mpr ⟨r, List.mem_map.mpr ⟨r, hr, by simp [hk]⟩, hre⟩
      · rcases List.any_eq_true.mp h with ⟨r, hr, hrk⟩
        refine List.mem_map.mpr ⟨(k, v), List.mem_map.mpr ⟨r, hr, by simp [hrk]⟩, by simp [ha]⟩
  · next h =>
    simp only [List.map_append, List.mem_append]
    constructor
    · rintro (ha | ha)
      · exact Or.inl ha
      · right; simpa using ha
    · rintro (ha | ha)
      · exact Or.inl ha
      · right; simpa using ha

theorem mem_pyDict {β : Type} {l : List (String × β)} {p : String × β}
    (hp : p ∈ pyDict l) : p ∈ l := by
  suffices h : ∀ (l d : List (String × β)) (p : String × β),
      p ∈ l.foldl (fun d q => pyDictInsert d q.1 q.2) d → p ∈ d ∨ p ∈ l by
    rcases h l [] p hp with h | h
    · simp at h
    · exact h
  intro l
  induction l with
  | nil => intro d p hp; exact Or.inl hp
  | cons q l ih =>
    intro d p hp
    rcases ih (pyDictInsert d q.1 q.2) p hp with h | h
    · rcases mem_pyDictInsert h with h | h
      · exact Or.inl h
      · right; simp [h]
    · right; exact List.mem_cons_of_mem _ h

theorem key_mem_pyDict {β : Type} {l : List (String × β)} {a : String} :
    a ∈ (pyDict l).map (fun p => p.1) ↔ a ∈ l.map (fun p => p.1) := by
  suffices h : ∀ (l d : List (String × β)) (a : String),
      (a ∈ (l.foldl (fun d q => pyDictInsert d q.1 q.2) d).map (fun p => p.1) ↔
        a ∈ d.map (fun p => p.1) ∨ a ∈ l.map (fun p => p.1)) by
    rw [pyDict, h l [] a]; simp
  intro l
  induction l with
  | nil => intro d a; simp
  | cons q l ih =>
    intro d a
    rw [List.foldl_cons, ih (pyDictInsert d q.1 q.2) a, key_mem_pyDictInsert]
    simp only [List.map_cons, List.mem_cons]
    tauto

theorem pyDictInsert_fresh {β : Type} {d : List (String × β)} {k : String} {v : β}
    (h : ∀ p ∈ d, p.1 ≠ k) : pyDictInsert d k v = d ++ [(k, v)] := by
  unfold pyDictInsert
  have : d.any (fun p => p.1 == k) = false := by
    rw [List.any_eq_false]
    intro p hp
    simpa using h p hp
  simp [this]

theorem pyDict_append_single {β : Type} {l : List (String × β)} {k : String} {v : β}
    (h : ∀ p ∈ l, p.1 ≠ k) : pyDict (l ++ [(k, v)]) = pyDict l ++ [(k, v)] := by
  unfold pyDict
  rw [List.foldl_append]
  simp only [List.foldl_cons, List.foldl_nil]
  exact pyDictInsert_fresh (fun p hp h1 => by
    have : p.1 ∈ l.map (fun p => p.1) := List.mem_map.mpr ⟨p, mem_pyDict hp, rfl⟩
    rcases List.mem_map.mp this with ⟨q, hq, hqe⟩
    exact h q hq (hqe.trans h1))

theorem pyGet_append_single {β : Type} {d : List (String × β)} {k : String} {v : β}
    (h : ∀ p ∈ d, p.1 ≠ k) : pyGet (d ++ [(k, v)]) k = some v := by
  induction d with
  | nil => simp [pyGet]
  | cons q d ih =>
    have hq : q.1 ≠ k := h q (List.mem_cons_self q d)
    have : pyGet (q :: d ++ [(k, v)]) k = pyGet (d ++ [(k, v)]) k := by
      unfold pyGet
      rw [List.cons_append, List.find?_cons_of_neg _ (by simpa using hq)]
    rw [this]
    exact ih (fun p hp => h p (List.mem_cons_of_mem _ hp))

/-! ## The remote document-management server

The tag and document collections of the paperless API, with sequential id
assignment.  A listing request returns the whole collection (the scripts
under test never paginate the tag listing; the pagination behaviour itself
is examined separately below with an explicit page-level model). -/

/-- A named API resource (`{id, name}`), used for tags. -/
structure ApiTag where
  id : Nat
  name : String
  deriving DecidableEq

/-- The mixed representation in which a document's tags arrive from the
API: either a bare identifier or an object containing an identifier. -/
inductive TagRef where
  | rawId (n : Nat)
  | rawObj (n : Nat)
  deriving DecidableEq

/-- The identifier carried by either representation
(`tag.get("id") if isinstance(tag, dict) else tag`). -/
def TagRef.refId : TagRef → Nat
  | .rawId n => n
  | .rawObj n => n

/-- A document as stored on the server (only the fields the scripts touch). -/
structure ApiDoc where
  id : Nat
  tags : List TagRef
  deriving DecidableEq

/-- The remote server's state: its tag collection, document collection,
the next id it will assign to a created resource, the page size of its
cursor-paginated listings, and whether the single listing GET the scripts
issue fails in transit. -/
structure ServerState where
  tags : List ApiTag
  docs : List ApiDoc
  nextId : Nat
  pageSize : Nat
  listingFails : Bool
  deriving DecidableEq

/-- The slice of the tag collection a single `GET /api/tags/` returns:
the first page of the cursor-paginated listing. -/
def visibleTags (st : ServerState) : List ApiTag := st.tags.take st.pageSize

/-- `fetch_tags` (api_helpers.py): ONE GET of `/api/tags/` — the first
page of the paginated listing, with no `next` following — building the
Python dict `{tag["name"]: tag["id"]}` over its `results`; any exception
is caught and the empty dict returned. -/
def fetch_tags (st : ServerState) : List (String × Nat) :=
  if st.listingFails then []
  else pyDict ((visibleTags st).map (fun t => (t.name, t.id)))

/-- `create_tag` (api_helpers.py): POST a new tag with the given name.
The API enforces the spec's NamedResource invariant — names are
case-insensitively unique within the resource type — so a duplicate
create is rejected (an HTTP 400, on which the source logs and returns
`None`); otherwise the server assigns the next id, which is returned. -/
def create_tag (st : ServerState) (name : String) : Option (Nat × ServerState) :=
  if st.tags.any (fun t => pyLower t.name == pyLower name) then none
  else
    some (st.nextId,
      ⟨st.tags ++ [⟨st.nextId, name⟩], st.docs, st.nextId + 1,
        st.pageSize, st.listingFails⟩)

/-- Python truthiness of `tag_id` after a `dict.get`: `None` and `0` are
falsy. -/
def truthyOptNat : Option Nat → Bool
  | none => false
  | some n => n != 0

/-- Result of `fetch_or_create_tag`: the resolved id, the server state
afterwards, and whether a create request was issued. -/
structure ResolveResult where
  tagId : Nat
  state : ServerState
  created : Bool
  deriving DecidableEq

/-- The normalized name→id lookup built inside `fetch_or_create_tag`. -/
def normalizedTags (st : ServerState) : List (String × Nat) :=
  pyDict ((fetch_tags st).map (fun p => (normName p.1, p.2)))

/-- `fetch_or_create_tag` (api_helpers.py): fetch the tags the single
listing GET shows, look the name up case-insensitively and
whitespace-trimmed; if absent (or falsy), create a tag with the exact
given name; when `create_tag` returns `None` (a rejected create) or a
falsy id, raise (`Except.error`). -/
def fetch_or_create_tag (st : ServerState) (tagName : String) :
    Except Unit ResolveResult :=
  let tid := pyGet (normalizedTags st) (normName tagName)
  if truthyOptNat tid then .ok ⟨tid.getD 0, st, false⟩
  else
    match create_tag st tagName with
    | none => .error ()
    | some r => if r.1 = 0 then .error () else .ok ⟨r.1, r.2, true⟩

theorem pyGet_some_mem {β : Type} {d : List (String × β)} {k : String} {v : β}
    (h : pyGet d k = some v) : ∃ q ∈ d, q.1 = k ∧ q.2 = v := by
  unfold pyGet at h
  cases hfind : d.find? (fun p => p.1 == k) with
  | none => rw [hfind] at h; simp at h
  | some q =>
    rw [hfind] at h
    refine ⟨q, List.mem_of_find?_eq_some hfind, ?_, ?_⟩
    · simpa using List.find?_some hfind
    · simpa using h

/-- Every binding of the normalized lookup comes from a tag visible on
the fetched page. -/
theorem normalizedTags_provenance {st : ServerState} {key : String} {v : Nat}
    (h : pyGet (normalizedTags st) key = some v) :
    ∃ t ∈ visibleTags st, t.id = v ∧ normName t.name = key := by
  by_cases hfail : st.listingFails = true
  · rw [normalizedTags, fetch_tags, if_pos hfail] at h
    simp [pyDict, pyGet] at h
  · rw [normalizedTags, fetch_tags, if_neg hfail] at h
    rcases pyGet_some_mem h with ⟨q, hq, hqk, hqv⟩
    rcases List.mem_map.mp (mem_pyDict hq) with ⟨p, hp, hpe⟩
    rcases List.mem_map.mp (mem_pyDict hp) with ⟨t, ht, hte⟩
    refine ⟨t, ht, ?_, ?_⟩
    · have : p.2 = q.2 := by rw [← hpe]
      have h2 : t.id = p.2 := by rw [← hte]
      rw [h2, this, hqv]
    · have : normName p.1 = q.1 := by rw [← hpe]
      have h2 : t.name = p.1 := by rw [← hte]
      rw [h2, this, hqk]

/-- If the listing GET succeeds and the normalized lookup misses, no
visible tag has that normalized name. -/
theorem normalizedTags_absent {st : ServerState} {key : String}
    (hfail : st.listingFails = false)
    (h : pyGet (normalizedTags st) key = none) :
    ∀ t ∈ visibleTags st, normName t.name ≠ key := by
  intro t ht hkey
  have h1 : t.name ∈ ((visibleTags st).map (fun t => (t.name, t.id))).map
      (fun p => p.1) :=
    List.mem_map.mpr ⟨(t.name, t.id), List.mem_map.mpr ⟨t, ht, rfl⟩, rfl⟩
  have h2 : t.name ∈ (fetch_tags st).map (fun p => p.1) := by
    rw [fetch_tags, if_neg (by simp [hfail])]
    exact key_mem_pyDict.mpr h1
  rcases List.mem_map.mp h2 with ⟨p, hp, hpe⟩
  have h3 : key ∈ ((fetch_tags st).map (fun p => (normName p.1, p.2))).map
      (fun p => p.1) :=
    List.mem_map.mpr ⟨(normName p.1, p.2), List.mem_map.mpr ⟨p, hp, rfl⟩, by
      simpa [hpe] using hkey⟩
  have h4 : key ∈ (normalizedTags st).map (fun p => p.1) := key_mem_pyDict.mpr h3
  rcases List.mem_map.mp h4 with ⟨q, hq, hqe⟩
  exact (pyGet_eq_none_iff _ _).mp h q hq hqe

/-- Case-insensitive name equality is finer than the lookup
normalization. -/
theorem normName_eq_of_lower_eq {a b : String} (h : pyLower a = pyLower b) :
    normName a = normName b := by rw [normName, normName, h]

/-- A create is accepted when no tag's normalized name collides. -/
theorem create_tag_success {st : ServerState} {nm : String}
    (habs : ∀ t ∈ st.tags, normName t.name ≠ normName nm) :
    create_tag st nm = some (st.nextId,
      ⟨st.tags ++ [⟨st.nextId, nm⟩], st.docs, st.nextId + 1,
        st.pageSize, st.listingFails⟩) := by
  have hdup : st.tags.any (fun t => pyLower t.name == pyLower nm) = false := by
    rw [List.any_eq_false]
    intro t ht hcon
    exact habs t ht (normName_eq_of_lower_eq (by simpa using hcon))
  rw [create_tag, if_neg (by simp [hdup])]

/-- After an accepted create of a tag whose normalized name was absent
from the whole collection, and when the grown collection still fits on
the fetched page, the normalized lookup finds exactly the created id. -/
theorem normalizedTags_after_create {st : ServerState} {nm : String}
    {newId : Nat} {st2 : ServerState}
    (hc : create_tag st nm = some (newId, st2))
    (hfail : st.listingFails = false) (hvis : st.tags.length < st.pageSize)
    (habs : ∀ t ∈ st.tags, normName t.name ≠ normName nm) :
    pyGet (normalizedTags st2) (normName nm) = some st.nextId := by
  rw [create_tag_success habs] at hc
  have h2 : st2 = ⟨st.tags ++ [⟨st.nextId, nm⟩], st.docs, st.nextId + 1,
      st.pageSize, st.listingFails⟩ := (congrArg Prod.snd (Option.some.inj hc)).symm
  subst h2
  have htake : (st.tags ++ [(⟨st.nextId, nm⟩ : ApiTag)]).take st.pageSize =
      st.tags ++ [⟨st.nextId, nm⟩] := by
    apply List.take_of_length_le
    rw [List.length_append]
    simpa using hvis
  have hfresh : ∀ p ∈ st.tags.map (fun t => (t.name, t.id)), p.1 ≠ nm := by
    intro p hp hpe
    rcases List.mem_map.mp hp with ⟨t, ht, hte⟩
    have : t.name = nm := by rw [← hpe, ← hte]
    exact habs t ht (by rw [this])
  have hfetch : fetch_tags ⟨st.tags ++ [⟨st.nextId, nm⟩], st.docs,
      st.nextId + 1, st.pageSize, st.listingFails⟩ =
      pyDict (st.tags.map (fun t => (t.name, t.id))) ++ [(nm, st.nextId)] := by
    rw [fetch_tags, if_neg (by simp [hfail]), visibleTags]
    show pyDict (((st.tags ++ [(⟨st.nextId, nm⟩ : ApiTag)]).take st.pageSize).map
      (fun t => (t.name, t.id))) = _
    rw [htake, List.map_append, List.map_cons, List.map_nil,
      pyDict_append_single hfresh]
  have hnormfresh : ∀ p ∈ (pyDict (st.tags.map (fun t => (t.name, t.id)))).map
      (fun p => (normName p.1, p.2)), p.1 ≠ normName nm := by
    intro p hp hpe
    rcases List.mem_map.mp hp with ⟨q, hq, hqe⟩
    rcases List.mem_map.mp (mem_pyDict hq) with ⟨t, ht, hte⟩
    have h1 : normName q.1 = normName nm := by rw [← hpe, ← hqe]
    have h2 : t.name = q.1 := by rw [← hte]
    exact habs t ht (by rw [h2, h1])
  unfold normalizedTags
  rw [hfetch, List.map_append]
  simp only [List.map_cons, List.map_nil]
  rw [pyDict_append_single hnormfresh]
  exact pyGet_append_single (fun p hp => hnormfresh p (mem_pyDict hp))

/-- If a unique visible tag carries the normalized name, the lookup
returns its id. -/
theorem normalizedTags_unique {st : ServerState} {key : String} {t : ApiTag}
    (hfail : st.listingFails = false)
    (ht : t ∈ visibleTags st) (hkey : normName t.name = key)
    (huniq : ∀ u ∈ visibleTags st, normName u.name = key → u.id = t.id) :
    pyGet (normalizedTags st) key = some t.id := by
  cases h : pyGet (normalizedTags st) key with
  | none => exact absurd hkey (normalizedTags_absent hfail h t ht)
  | some v =>
    rcases normalizedTags_provenance h with ⟨u, hu, huv, hukey⟩
    rw [← huv, huniq u hu hukey]

/-- C1 (counterexample) — on a tag collection spanning more than one
listing page, the tag the first call creates is not visible to the second
call's single-page fetch: the second call issues a duplicate create,
which the API's uniqueness constraint rejects, and the function raises
instead of returning the same id with no create. -/
theorem fetch_or_create_tag_idempotent_counterexample :
    fetch_or_create_tag ⟨[⟨1, "a"⟩], [], 2, 1, false⟩ "b"
      = .ok ⟨2, ⟨[⟨1, "a"⟩, ⟨2, "b"⟩], [], 3, 1, false⟩, true⟩ ∧
    fetch_or_create_tag ⟨[⟨1, "a"⟩, ⟨2, "b"⟩], [], 3, 1, false⟩ "b"
      = .error () :=
  ⟨rfl, rfl⟩

/-- C1 (amended) — Idempotent resolution holds provided the single
listing GET succeeds and shows the whole tag collection with room for the
tag the first call may create (the collection fits the fetched page), on
a server that assigns nonzero ids: with no concurrent mutation, two
sequential `fetch_or_create_tag` calls for the same name return the same
id, the second call issues no create, and leaves the server unchanged.
On a collection spanning several pages the second call can miss the tag
the first call created and raise on its rejected duplicate create. -/
theorem fetch_or_create_tag_idempotent_amended (st : ServerState) (name : String)
    (hfail : st.listingFails = false) (hvis : st.tags.length < st.pageSize)
    (hids : ∀ t ∈ st.tags, t.id ≠ 0) (hnext : st.nextId ≠ 0) :
    ∃ r1 r2 : ResolveResult,
      fetch_or_create_tag st name = .ok r1 ∧
      fetch_or_create_tag r1.state name = .ok r2 ∧
      r2.tagId = r1.tagId ∧ r2.state = r1.state ∧ r2.created = false := by
  have htake : visibleTags st = st.tags :=
    List.take_of_length_le (Nat.le_of_lt hvis)
  by_cases h : truthyOptNat (pyGet (normalizedTags st) (normName name)) = true
  · refine ⟨⟨(pyGet (normalizedTags st) (normName name)).getD 0, st, false⟩,
      ⟨(pyGet (normalizedTags st) (normName name)).getD 0, st, false⟩, ?_, ?_, rfl, rfl, rfl⟩
    · unfold fetch_or_create_tag
      rw [if_pos h]
    · unfold fetch_or_create_tag
      rw [if_pos h]
  · have hnone : pyGet (normalizedTags st) (normName name) = none := by
      cases hv : pyGet (normalizedTags st) (normName name) with
      | none => rfl
      | some v =>
        rcases normalizedTags_provenance hv with ⟨t, ht, htv, _⟩
        rw [hv] at h
        have : v = 0 := by simpa [truthyOptNat] using h
        rw [htake] at ht
        exact absurd (htv.trans this) (hids t ht)
    have habs : ∀ t ∈ st.tags, normName t.name ≠ normName name := by
      rw [← htake]
      exact normalizedTags_absent hfail hnone
    have hc := create_tag_success habs
    have hlook := normalizedTags_after_create hc hfail hvis habs
    refine ⟨⟨st.nextId, ⟨st.tags ++ [⟨st.nextId, name⟩], st.docs, st.nextId + 1,
        st.pageSize, st.listingFails⟩, true⟩,
      ⟨st.nextId, ⟨st.tags ++ [⟨st.nextId, name⟩], st.docs, st.nextId + 1,
        st.pageSize, st.listingFails⟩, false⟩, ?_, ?_, rfl, rfl, rfl⟩
    · unfold fetch_or_create_tag
      rw [hnone]
      simp only [truthyOptNat, Bool.false_eq_true, if_false]
      rw [hc]
      simp [hnext]
    · unfold fetch_or_create_tag
      rw [hlook]
      simp [truthyOptNat, hnext]

/-- Witness for C1 (amended) at a concrete one-page server state. -/
theorem fetch_or_create_tag_idempotent_amended_witness :
    ∃ r1 r2 : ResolveResult,
      fetch_or_create_tag ⟨[], [], 1, 25, false⟩ "Tag" = .ok r1 ∧
      fetch_or_create_tag r1.state "Tag" = .ok r2 ∧
      r2.tagId = r1.tagId ∧ r2.state = r1.state ∧ r2.created = false :=
  fetch_or_create_tag_idempotent_amended ⟨[], [], 1, 25, false⟩ "Tag"
    rfl (by decide) (by simp) (by decide)

/-- C7 (counterexample) — an existing "Tag" beyond the first listing page
is invisible to the source: resolving "tag" attempts a create that the
case-insensitive uniqueness constraint rejects, so the call raises; and
resolving "  Tag  " creates a new resource with a new id instead of
returning the existing one. -/
theorem fetch_or_create_tag_normalizes_counterexample :
    (⟨2, "Tag"⟩ : ApiTag) ∈
      ServerState.tags ⟨[⟨1, "a"⟩, ⟨2, "Tag"⟩], [], 3, 1, false⟩ ∧
    fetch_or_create_tag ⟨[⟨1, "a"⟩, ⟨2, "Tag"⟩], [], 3, 1, false⟩ "tag"
      = .error () ∧
    fetch_or_create_tag ⟨[⟨1, "a"⟩, ⟨2, "Tag"⟩], [], 3, 1, false⟩ "  Tag  "
      = .ok ⟨3, ⟨[⟨1, "a"⟩, ⟨2, "Tag"⟩, ⟨3, "  Tag  "⟩], [], 4, 1, false⟩, true⟩ ∧
    (3 : Nat) ≠ 2 :=
  ⟨by decide, rfl, rfl, by decide⟩

/-- C7 (amended) — Case/whitespace normalization holds provided the
single listing GET succeeds and the existing "Tag" is visible on the
fetched page (uniquely so up to normalization, with a truthy id):
resolving "  Tag  " and resolving "tag" both return its id, and neither
call creates anything or changes the server.  A "Tag" beyond the first
page is invisible and the call attempts a create instead. -/
theorem fetch_or_create_tag_normalizes_amended (st : ServerState) (t : ApiTag)
    (hfail : st.listingFails = false) (ht : t ∈ visibleTags st)
    (hname : t.name = "Tag") (hid : t.id ≠ 0)
    (huniq : ∀ u ∈ visibleTags st, normName u.name = "tag" → u.id = t.id) :
    fetch_or_create_tag st "  Tag  " = .ok ⟨t.id, st, false⟩ ∧
    fetch_or_create_tag st "tag" = .ok ⟨t.id, st, false⟩ := by
  have hkey : normName t.name = "tag" := by rw [hname]; decide
  have hlook := normalizedTags_unique hfail ht hkey huniq
  have hkey1 : normName "  Tag  " = "tag" := by decide
  have hkey2 : normName "tag" = "tag" := by decide
  constructor
  · unfold fetch_or_create_tag
    rw [hkey1, hlook]
    simp [truthyOptNat, hid]
  · unfold fetch_or_create_tag
    rw [hkey2, hlook]
    simp [truthyOptNat, hid]

/-- Witness for C7 (amended) at a concrete one-page server state. -/
theorem fetch_or_create_tag_normalizes_amended_witness :
    fetch_or_create_tag ⟨[⟨1, "Tag"⟩], [], 2, 25, false⟩ "  Tag  "
      = .ok ⟨1, ⟨[⟨1, "Tag"⟩], [], 2, 25, false⟩, false⟩ ∧
    fetch_or_create_tag ⟨[⟨1, "Tag"⟩], [], 2, 25, false⟩ "tag"
      = .ok ⟨1, ⟨[⟨1, "Tag"⟩], [], 2, 25, false⟩, false⟩ :=
  fetch_or_create_tag_normalizes_amended ⟨[⟨1, "Tag"⟩], [], 2, 25, false⟩
    ⟨1, "Tag"⟩ rfl (by decide) rfl (by decide) (by decide)

/-! ## Tagging a document (`add_tag_to_document`) -/

/-- Insert an id into an ascending duplicate-free list, keeping it
ascending and duplicate-free (one element added to a Python `set`, viewed
through `sorted`). -/
def insertSorted (n : Nat) : List Nat → List Nat
  | [] => [n]
  | m :: ms => if n < m then n :: m :: ms else if n = m then m :: ms else m :: insertSorted n ms

/-- Python `sorted(set(l))`: the ascending duplicate-free list of the
elements of `l`. -/
def sortedSet (l : List Nat) : List Nat := l.foldr insertSorted []

/-- `fetch_document_details` restricted to locating the document (a 404
becomes an exception at the caller). -/
def findDoc (st : ServerState) (docId : Nat) : Option ApiDoc :=
  st.docs.find? (fun d => d.id == docId)

/-- `add_tag_to_document` (api_helpers.py): fetch the document, normalize
its mixed-representation tags to a set of ids, add `tagId`, and PATCH the
sorted id list back.  A missing document raises (`Except.error`); the
server stores the patched tag list as bare ids. -/
def add_tag_to_document (st : ServerState) (docId tagId : Nat) :
    Except Unit ServerState :=
  match findDoc st docId with
  | none => .error ()
  | some doc =>
      .ok ⟨st.tags,
        st.docs.map (fun d =>
          if d.id == docId then
            ⟨d.id, (insertSorted tagId (sortedSet (doc.tags.map TagRef.refId))).map
              TagRef.rawId⟩
          else d),
        st.nextId, st.pageSize, st.listingFails⟩

theorem find_update {docs : List ApiDoc} {docId : Nat} {doc : ApiDoc}
    (h : docs.find? (fun d => d.id == docId) = some doc) (newTags : List TagRef) :
    (docs.map (fun d => if d.id == docId then ApiDoc.mk d.id newTags else d)).find?
      (fun d => d.id == docId) = some ⟨doc.id, newTags⟩ := by
  induction docs with
  | nil => simp at h
  | cons a l ih =>
    by_cases ha : (a.id == docId) = true
    · rw [List.find?_cons_of_pos (p := fun (d : ApiDoc) => d.id == docId) _ ha] at h
      have had : a = doc := by simpa using h
      subst had
      rw [List.map_cons, if_pos ha]
      exact List.find?_cons_of_pos _ ha
    · rw [List.find?_cons_of_neg (p := fun (d : ApiDoc) => d.id == docId) _ ha] at h
      simp only [List.map_cons, if_neg ha]
      rw [List.find?_cons_of_neg (p := fun (d : ApiDoc) => d.id == docId) _ ha]
      exact ih h

/-- C8 — Tag-set union idempotence: on a document whose tag set is {2,3}
(in either arriving representation), adding tag 5 stores exactly
[2, 3, 5]; adding 5 again succeeds and leaves the same set, with no
duplicates and no error. -/
theorem add_tag_to_document_idempotent (st : ServerState) (docId : Nat) (doc : ApiDoc)
    (hdoc : findDoc st docId = some doc)
    (hset : sortedSet (doc.tags.map TagRef.refId) = [2, 3]) :
    ∃ st1 st2 : ServerState,
      add_tag_to_document st docId 5 = .ok st1 ∧
      findDoc st1 docId = some ⟨doc.id, [.rawId 2, .rawId 3, .rawId 5]⟩ ∧
      add_tag_to_document st1 docId 5 = .ok st2 ∧
      findDoc st2 docId = some ⟨doc.id, [.rawId 2, .rawId 3, .rawId 5]⟩ := by
  have hnew : (insertSorted 5 (sortedSet (doc.tags.map TagRef.refId))).map TagRef.rawId
      = [.rawId 2, .rawId 3, .rawId 5] := by rw [hset]; rfl
  refine ⟨⟨st.tags, st.docs.map (fun d =>
        if d.id == docId then ⟨d.id, [.rawId 2, .rawId 3, .rawId 5]⟩ else d),
        st.nextId, st.pageSize, st.listingFails⟩,
      ⟨st.tags, (st.docs.map (fun d =>
        if d.id == docId then ⟨d.id, [.rawId 2, .rawId 3, .rawId 5]⟩ else d)).map (fun d =>
        if d.id == docId then ⟨d.id, [.rawId 2, .rawId 3, .rawId 5]⟩ else d),
        st.nextId, st.pageSize, st.listingFails⟩,
      ?_, ?_, ?_, ?_⟩
  · unfold add_tag_to_document
    rw [hdoc]
    simp only [hnew]
  · have := find_update (by simpa [findDoc] using hdoc)
      [TagRef.rawId 2, .rawId 3, .rawId 5]
    simpa [findDoc] using this
  · have hfind1 : findDoc ⟨st.tags, st.docs.map (fun d =>
        if d.id == docId then ⟨d.id, [.rawId 2, .rawId 3, .rawId 5]⟩ else d),
        st.nextId, st.pageSize, st.listingFails⟩
        docId = some ⟨doc.id, [.rawId 2, .rawId 3, .rawId 5]⟩ := by
      have := find_update (by simpa [findDoc] using hdoc)
        [TagRef.rawId 2, .rawId 3, .rawId 5]
      simpa [findDoc] using this
    unfold add_tag_to_document
    rw [hfind1]
    rfl
  · have hfind1 : (st.docs.map (fun d =>
        if d.id == docId then ⟨d.id, [.rawId 2, .rawId 3, .rawId 5]⟩ else d)).find?
        (fun d => d.id == docId) = some ⟨doc.id, [.rawId 2, .rawId 3, .rawId 5]⟩ :=
      find_update (by simpa [findDoc] using hdoc)
        [TagRef.rawId 2, .rawId 3, .rawId 5]
    have := find_update hfind1 [TagRef.rawId 2, .rawId 3, .rawId 5]
    simpa [findDoc] using this

/-- Witness for C8: a document arriving with mixed tag representations
`[{"id": 3}, 2]`. -/
theorem add_tag_to_document_idempotent_witness :
    ∃ st1 st2 : ServerState,
      add_tag_to_document ⟨[], [⟨7, [.rawObj 3, .rawId 2]⟩], 1, 25, false⟩ 7 5 = .ok st1 ∧
      findDoc st1 7 = some ⟨7, [.rawId 2, .rawId 3, .rawId 5]⟩ ∧
      add_tag_to_document st1 7 5 = .ok st2 ∧
      findDoc st2 7 = some ⟨7, [.rawId 2, .rawId 3, .rawId 5]⟩ :=
  add_tag_to_document_idempotent ⟨[], [⟨7, [.rawObj 3, .rawId 2]⟩], 1, 25, false⟩ 7
    ⟨7, [.rawObj 3, .rawId 2]⟩ (by decide) (by decide)

/-! ## `to_snake_case` (api_helpers.py) -/

/-- The character class kept by the snake-case regex `[^a-z0-9]`:
a lowercase ASCII letter or a digit. -/
def isSnakeKeep (c : Char) : Bool :=
  (97 ≤ c.toNat && c.toNat ≤ 122) || (48 ≤ c.toNat && c.toNat ≤ 57)

/-- `re.sub(r"[^a-z0-9]+", "_", ·)`: every maximal run of excluded
characters is replaced by a single underscore.  The first argument records
whether the previous character belonged to such a run. -/
def subRuns : Bool → List Char → List Char
  | _, [] => []
  | inRun, c :: cs =>
    if isSnakeKeep c then c :: subRuns false cs
    else if inRun then subRuns true cs
    else '_' :: subRuns true cs

/-- Python `.strip("_")`. -/
def stripUnders (l : List Char) : List Char := stripEnds (fun c => c = '_') l

/-- `to_snake_case` (api_helpers.py):
`re.sub(r"[^a-z0-9]+", "_", text.lower()).strip("_")`. -/
def to_snake_case (s : String) : String :=
  ⟨stripUnders (subRuns false (s.data.map lowerAscii))⟩

/-- No two adjacent underscores. -/
def noDoubleUS (a b : Char) : Prop := ¬(a = '_' ∧ b = '_')

theorem mem_subRuns : ∀ (b : Bool) (l : List Char), ∀ c ∈ subRuns b l,
    isSnakeKeep c ∨ c = '_' := by
  intro b l
  induction l generalizing b with
  | nil => intro c hc; simp [subRuns] at hc
  | cons a l ih =>
    intro c hc
    by_cases ha : isSnakeKeep a
    · rw [subRuns, if_pos ha] at hc
      rcases List.mem_cons.mp hc with h | h
      · exact Or.inl (h ▸ ha)
      · exact ih false c h
    · rw [subRuns, if_neg ha] at hc
      cases b with
      | true => exact ih true c (by simpa using hc)
      | false =>
        rcases List.mem_cons.mp (by simpa using hc) with h | h
        · exact Or.inr h
        · exact ih true c h

theorem head_subRuns_true : ∀ l : List Char, (subRuns true l).head? ≠ some '_' := by
  intro l
  induction l with
  | nil => simp [subRuns]
  | cons a l ih =>
    by_cases ha : isSnakeKeep a
    · rw [subRuns, if_pos ha]
      intro h
      have : a = '_' := by simpa using h
      rw [this] at ha
      exact absurd ha (by decide)
    · rw [subRuns, if_neg ha]
      simpa using ih

theorem chain_subRuns : ∀ (b : Bool) (l : List Char),
    List.Chain' noDoubleUS (subRuns b l) := by
  intro b l
  induction l generalizing b with
  | nil => simp [subRuns]
  | cons a l ih =>
    by_cases ha : isSnakeKeep a
    · rw [subRuns, if_pos ha]
      rw [List.chain'_cons']
      refine ⟨?_, ih false⟩
      intro y _
      intro hy
      rw [hy.1] at ha
      exact absurd ha (by decide)
    · rw [subRuns, if_neg ha]
      cases b with
      | true => simpa using ih true
      | false =>
        simp only [Bool.false_eq_true, if_false]
        rw [List.chain'_cons']
        refine ⟨?_, ih true⟩
        intro y hy
        intro hc
        exact head_subRuns_true l (by rw [hy, hc.2])

theorem subRuns_fixed : ∀ l : List Char,
    (∀ c ∈ l, isSnakeKeep c ∨ c = '_') → List.Chain' noDoubleUS l →
    subRuns false l = l ∧ (l.head? ≠ some '_' → subRuns true l = l) := by
  intro l
  induction l with
  | nil => exact fun _ _ => ⟨rfl, fun _ => rfl⟩
  | cons a l ih =>
    intro hmem hchain
    have htail : List.Chain' noDoubleUS l := (List.chain'_cons'.mp hchain).2
    have hhd := (List.chain'_cons'.mp hchain).1
    rcases hmem a (List.mem_cons_self a l) with ha | ha
    · have h1 : subRuns false l = l :=
        (ih (fun c hc => hmem c (List.mem_cons_of_mem a hc)) htail).1
      constructor
      · rw [subRuns, if_pos ha, h1]
      · intro _
        rw [subRuns, if_pos ha, h1]
    · have hkeep : ¬ isSnakeKeep a = true := by rw [ha]; decide
      have hheadl : l.head? ≠ some '_' := by
        intro h
        exact hhd '_' h ⟨ha, rfl⟩
      have h2 : subRuns true l = l :=
        (ih (fun c hc => hmem c (List.mem_cons_of_mem a hc)) htail).2 hheadl
      constructor
      · rw [subRuns, if_neg hkeep]
        simp [h2, ha]
      · intro hh
        exact absurd (by rw [List.head?_cons, ha]) hh

theorem lowerAscii_fixed {c : Char} (h : isSnakeKeep c ∨ c = '_') :
    lowerAscii c = c := by
  rcases h with h | h
  · have : (97 ≤ c.toNat ∧ c.toNat ≤ 122) ∨ (48 ≤ c.toNat ∧ c.toNat ≤ 57) := by
      simpa [isSnakeKeep, Bool.or_eq_true, Bool.and_eq_true, decide_eq_true_eq] using h
    unfold lowerAscii
    rw [if_neg]
    simp only [Bool.and_eq_true, decide_eq_true_eq, not_and, not_le]
    omega
  · rw [h]; decide

theorem map_fixed {f : Char → Char} : ∀ {l : List Char},
    (∀ c ∈ l, f c = c) → l.map f = l := by
  intro l
  induction l with
  | nil => intro _; rfl
  | cons a l ih =>
    intro h
    rw [List.map_cons, h a (List.mem_cons_self a l),
      ih (fun c hc => h c (List.mem_cons_of_mem a hc))]

theorem mem_dropWhile {p : Char → Bool} : ∀ {l : List Char} {c : Char},
    c ∈ l.dropWhile p → c ∈ l := by
  intro l
  induction l with
  | nil => intro c hc; simpa using hc
  | cons a l ih =>
    intro c hc
    by_cases ha : p a
    · rw [List.dropWhile_cons_of_pos ha] at hc
      exact List.mem_cons_of_mem a (ih hc)
    · rw [List.dropWhile_cons_of_neg ha] at hc
      exact hc

theorem chain_dropWhile {p : Char → Bool} : ∀ {l : List Char},
    List.Chain' noDoubleUS l → List.Chain' noDoubleUS (l.dropWhile p) := by
  intro l
  induction l with
  | nil => intro h; simpa using h
  | cons a l ih =>
    intro h
    by_cases ha : p a
    · rw [List.dropWhile_cons_of_pos ha]
      exact ih (List.chain'_cons'.mp h).2
    · rw [List.dropWhile_cons_of_neg ha]
      exact h

theorem head_dropWhile {p : Char → Bool} : ∀ {l : List Char} {a : Char},
    (l.dropWhile p).head? = some a → ¬ p a := by
  intro l
  induction l with
  | nil => intro a ha; simp at ha
  | cons c l ih =>
    intro a ha
    by_cases hc : p c
    · rw [List.dropWhile_cons_of_pos hc] at ha
      exact ih ha
    · rw [List.dropWhile_cons_of_neg hc] at ha
      have : c = a := by simpa using ha
      exact this ▸ hc

theorem getLast_dropWhile {p : Char → Bool} : ∀ l : List Char,
    l.dropWhile p = [] ∨ (l.dropWhile p).getLast? = l.getLast? := by
  intro l
  induction l with
  | nil => exact Or.inl rfl
  | cons c l ih =>
    by_cases hc : p c
    · rw [List.dropWhile_cons_of_pos hc]
      rcases ih with h | h
      · exact Or.inl h
      · cases l with
        | nil => exact Or.inl (by simpa using h.symm ▸ rfl)
        | cons d ds => exact Or.inr (by rw [h, List.getLast?_cons_cons])
    · rw [List.dropWhile_cons_of_neg hc]
      exact Or.inr rfl

theorem dropWhile_of_head {p : Char → Bool} {l : List Char}
    (h : ∀ a, l.head? = some a → ¬ p a) : l.dropWhile p = l := by
  cases l with
  | nil => rfl
  | cons c cs => exact List.dropWhile_cons_of_neg (h c rfl)

theorem chain_reverse_noDoubleUS {l : List Char}
    (h : List.Chain' noDoubleUS l) : List.Chain' noDoubleUS l.reverse := by
  rw [List.chain'_reverse]
  exact h.imp (fun a b hab hba => hab ⟨hba.2, hba.1⟩)

/-- All the structural facts about `stripUnders (subRuns false l0)`:
characters are kept characters or underscores, no two underscores are
adjacent, and neither end is an underscore. -/
theorem snake_shape (l0 : List Char) :
    (∀ c ∈ stripUnders (subRuns false l0), isSnakeKeep c ∨ c = '_') ∧
    List.Chain' noDoubleUS (stripUnders (subRuns false l0)) ∧
    (stripUnders (subRuns false l0)).head? ≠ some '_' ∧
    (stripUnders (subRuns false l0)).getLast? ≠ some '_' := by
  set L := subRuns false l0 with hL
  have hmemL : ∀ c ∈ L, isSnakeKeep c ∨ c = '_' := mem_subRuns false l0
  have hchainL : List.Chain' noDoubleUS L := chain_subRuns false l0
  refine ⟨?_, ?_, ?_, ?_⟩
  · intro c hc
    unfold stripUnders stripEnds at hc
    rw [List.mem_reverse] at hc
    have := mem_dropWhile hc
    rw [List.mem_reverse] at this
    exact hmemL c (mem_dropWhile this)
  · unfold stripUnders stripEnds
    exact chain_reverse_noDoubleUS (chain_dropWhile
      (chain_reverse_noDoubleUS (chain_dropWhile hchainL)))
  · unfold stripUnders stripEnds
    intro h
    rw [List.head?_reverse] at h
    rcases getLast_dropWhile ((L.dropWhile fun c => c = '_').reverse) with he | he
    · rw [he] at h; simp at h
    · rw [he, List.getLast?_reverse] at h
      exact head_dropWhile h (by simp)
  · unfold stripUnders stripEnds
    intro h
    rw [List.getLast?_reverse] at h
    exact head_dropWhile h (by simp)

/-- C10 — `to_snake_case` is idempotent: applied twice it equals itself
applied once, and its output consists only of lowercase letters, digits
and single interior underscores, with no leading or trailing underscore
(so the canonical-key matching in `populate_field_mapping_with_ids`,
which snake-cases both sides, is well defined). -/
theorem to_snake_case_idempotent (s : String) :
    to_snake_case (to_snake_case s) = to_snake_case s ∧
    (∀ c ∈ (to_snake_case s).data, isSnakeKeep c ∨ c = '_') ∧
    List.Chain' noDoubleUS (to_snake_case s).data ∧
    (to_snake_case s).data.head? ≠ some '_' ∧
    (to_snake_case s).data.getLast? ≠ some '_' := by
  obtain ⟨hmem, hchain, hhead, hlast⟩ := snake_shape (s.data.map lowerAscii)
  set L : List Char := stripUnders (subRuns false (s.data.map lowerAscii)) with hLdef
  have hdata : (to_snake_case s).data = L := rfl
  refine ⟨?_, by rw [hdata]; exact hmem, by rw [hdata]; exact hchain,
    by rw [hdata]; exact hhead, by rw [hdata]; exact hlast⟩
  have hlow : L.map lowerAscii = L := map_fixed (fun c hc => lowerAscii_fixed (hmem c hc))
  have hsub : subRuns false L = L := (subRuns_fixed L hmem hchain).1
  have hstrip : stripUnders L = L := by
    unfold stripUnders stripEnds
    have h1 : List.dropWhile (fun c => decide (c = '_')) L = L :=
      dropWhile_of_head (fun a ha hp =>
        hhead (by rw [ha, show a = '_' from by simpa using hp]))
    rw [h1]
    have h2 : List.dropWhile (fun c => decide (c = '_')) L.reverse = L.reverse :=
      dropWhile_of_head (fun a ha hp => by
        rw [List.head?_reverse] at ha
        exact hlast (by rw [ha, show a = '_' from by simpa using hp]))
    rw [h2, List.reverse_reverse]
  show (⟨stripUnders (subRuns false ((to_snake_case s).data.map lowerAscii))⟩ : String) = ⟨L⟩
  rw [hdata, hlow, hsub, hstrip]

/-! ## JSON values and `json.loads` -/

/-- A JSON value (`json.loads` result), with numbers modelled exactly
by `ℚ`. -/
inductive Json where
  | null
  | bool (b : Bool)
  | num (q : ℚ)
  | str (s : String)
  | arr (elems : List Json)
  | obj (fields : List (String × Json))

/-- JSON whitespace. -/
def jsonWs (c : Char) : Bool := c = ' ' || c = '\t' || c = '\n' || c = '\r'

/-- The value of one hexadecimal digit. -/
def hexVal (c : Char) : Option Nat :=
  if 48 ≤ c.toNat && c.toNat ≤ 57 then some (c.toNat - 48)
  else if 97 ≤ c.toNat && c.toNat ≤ 102 then some (c.toNat - 87)
  else if 65 ≤ c.toNat && c.toNat ≤ 70 then some (c.toNat - 55)
  else none

/-- A single-character JSON string escape. -/
def escChar (e : Char) : Option Char :=
  if e = '"' then some '"'
  else if e = '\\' then some '\\'
  else if e = '/' then some '/'
  else if e = 'n' then some '\n'
  else if e = 't' then some '\t'
  else if e = 'r' then some '\r'
  else if e = 'b' then some (Char.ofNat 8)
  else if e = 'f' then some (Char.ofNat 12)
  else none

/-- Parse the body of a JSON string after the opening quote; returns the
decoded characters and the remaining input after the closing quote. -/
def parseJStr : List Char → Option (List Char × List Char)
  | [] => none
  | '"' :: rest => some ([], rest)
  | '\\' :: 'u' :: h1 :: h2 :: h3 :: h4 :: rest =>
    match hexVal h1, hexVal h2, hexVal h3, hexVal h4 with
    | some a, some b, some c, some d =>
      match parseJStr rest with
      | some (tl, rem) => some (Char.ofNat (((a * 16 + b) * 16 + c) * 16 + d) :: tl, rem)
      | none => none
    | _, _, _, _ => none
  | '\\' :: e :: rest =>
    match escChar e with
    | some ec =>
      match parseJStr rest with
      | some (tl, rem) => some (ec :: tl, rem)
      | none => none
    | none => none
  | c :: rest =>
    match parseJStr rest with
    | some (tl, rem) => some (c :: tl, rem)
    | none => none

/-- The natural number denoted by a digit run. -/
def digitsVal (l : List Char) : Nat := l.foldl (fun n c => n * 10 + (c.toNat - 48)) 0

/-- Parse a JSON number at the head of the input
(`-? int frac? exp?`, no leading zeros). -/
def parseJNum (l : List Char) : Option (ℚ × List Char) :=
  let (neg, l1) : Bool × List Char :=
    match l with
    | '-' :: r => (true, r)
    | r => (false, r)
  let intDigits := l1.takeWhile Char.isDigit
  let l2 := l1.dropWhile Char.isDigit
  if intDigits.isEmpty then none
  else if 1 < intDigits.length ∧ intDigits.head? = some '0' then none
  else
    let step1 : Option (ℚ × List Char) :=
      match l2 with
      | '.' :: r =>
        let fd := r.takeWhile Char.isDigit
        if fd.isEmpty then none
        else some ((digitsVal fd : ℚ) / (10 : ℚ) ^ fd.length, r.dropWhile Char.isDigit)
      | _ => some (0, l2)
    match step1 with
    | none => none
    | some (frac, l3) =>
      let step2 : Option (ℤ × List Char) :=
        match l3 with
        | 'e' :: r | 'E' :: r =>
          let (sgn, r1) : ℤ × List Char :=
            match r with
            | '+' :: r2 => (1, r2)
            | '-' :: r2 => (-1, r2)
            | r2 => (1, r2)
          let ed := r1.takeWhile Char.isDigit
          if ed.isEmpty then none
          else some (sgn * (digitsVal ed : ℤ), r1.dropWhile Char.isDigit)
        | _ => some (0, l3)
      match step2 with
      | none => none
      | some (ex, l4) =>
        let base : ℚ := (digitsVal intDigits : ℚ) + frac
        some ((if neg then -base else base) * (10 : ℚ) ^ ex, l4)

mutual

/-- Parse one JSON value (fuel-bounded recursive descent). -/
def parseJVal : Nat → List Char → Option (Json × List Char)
  | 0, _ => none
  | fuel + 1, l0 =>
    match l0.dropWhile jsonWs with
    | [] => none
    | c :: rest =>
      if c = '"' then
        match parseJStr rest with
        | some (cs, rem) => some (.str ⟨cs⟩, rem)
        | none => none
      else if c = Char.ofNat 123 then
        match parseJObjItems fuel rest with
        | some (ms, rem) => some (.obj ms, rem)
        | none => none
      else if c = '[' then
        match parseJArrItems fuel rest with
        | some (xs, rem) => some (.arr xs, rem)
        | none => none
      else if c = 't' then
        match rest with
        | 'r' :: 'u' :: 'e' :: rem => some (.bool true, rem)
        | _ => none
      else if c = 'f' then
        match rest with
        | 'a' :: 'l' :: 's' :: 'e' :: rem => some (.bool false, rem)
        | _ => none
      else if c = 'n' then
        match rest with
        | 'u' :: 'l' :: 'l' :: rem => some (.null, rem)
        | _ => none
      else
        match parseJNum (c :: rest) with
        | some (q, rem) => some (.num q, rem)
        | none => none

/-- Parse the items of an array after the opening bracket. -/
def parseJArrItems : Nat → List Char → Option (List Json × List Char)
  | 0, _ => none
  | fuel + 1, l =>
    match l.dropWhile jsonWs with
    | ']' :: rem => some ([], rem)
    | l1 =>
      match parseJVal fuel l1 with
      | some (v, rem) =>
        match parseJArrMore fuel rem with
        | some (vs, rem2) => some (v :: vs, rem2)
        | none => none
      | none => none

/-- Parse `, value`* `]` after an array item. -/
def parseJArrMore : Nat → List Char → Option (List Json × List Char)
  | 0, _ => none
  | fuel + 1, l =>
    match l.dropWhile jsonWs with
    | ']' :: rem => some ([], rem)
    | ',' :: rem =>
      match parseJVal fuel rem with
      | some (v, rem2) =>
        match parseJArrMore fuel rem2 with
        | some (vs, rem3) => some (v :: vs, rem3)
        | none => none
      | none => none
    | _ => none

/-- Parse one `"key": value` member. -/
def parseJMember : Nat → List Char → Option ((String × Json) × List Char)
  | 0, _ => none
  | fuel + 1, l =>
    match l.dropWhile jsonWs with
    | '"' :: rest =>
      match parseJStr rest with
      | some (ks, rem) =>
        match rem.dropWhile jsonWs with
        | ':' :: rem2 =>
          match parseJVal fuel rem2 with
          | some (v, rem3) => some ((⟨ks⟩, v), rem3)
          | none => none
        | _ => none
      | none => none
    | _ => none

/-- Parse the members of an object after the opening brace. -/
def parseJObjItems : Nat → List Char → Option (List (String × Json) × List Char)
  | 0, _ => none
  | fuel + 1, l =>
    match l.dropWhile jsonWs with
    | l1 =>
      if l1.head? = some (Char.ofNat 125) then some ([], l1.tail)
      else
        match parseJMember fuel l1 with
        | some (m, rem) =>
          match parseJObjMore fuel rem with
          | some (ms, rem2) => some (m :: ms, rem2)
          | none => none
        | none => none

/-- Parse `, member`* and the closing brace after an object member. -/
def parseJObjMore : Nat → List Char → Option (List (String × Json) × List Char)
  | 0, _ => none
  | fuel + 1, l =>
    match l.dropWhile jsonWs with
    | ',' :: rem =>
      match parseJMember fuel rem with
      | some (m, rem2) =>
        match parseJObjMore fuel rem2 with
        | some (ms, rem3) => some (m :: ms, rem3)
        | none => none
      | none => none
    | l1 =>
      if l1.head? = some (Char.ofNat 125) then some ([], l1.tail)
      else none

end

/-- `json.loads`: parse a complete JSON document, rejecting trailing
content. -/
def json_loads (s : String) : Option Json :=
  match parseJVal (8 * (s.data.length + 1)) s.data with
  | some (v, rem) => if (rem.dropWhile jsonWs).isEmpty then some v else none
  | none => none

/-! ## `analyze_document_with_openai` (ocr_tax_relief_checker.py) -/

/-- Modelled from the spec: the JSON schema file `tax_relief_schema.json`
is not included under `src/`.  Per the spec's ClassificationResult data
model, the schema requires `detected_services` (a sequence of findings),
`total_amount_claimable` (a number), `covered_under` (a string),
`confidence_score` (a number in `[0,1]`) and `analysis` (a string). -/
def validate_tax_relief (j : Json) : Bool :=
  match j with
  | .obj fields =>
    (match pyGet fields "detected_services" with
     | some (.arr _) => true
     | _ => false) &&
    (match pyGet fields "total_amount_claimable" with
     | some (.num _) => true
     | _ => false) &&
    (match pyGet fields "covered_under" with
     | some (.str _) => true
     | _ => false) &&
    (match pyGet fields "confidence_score" with
     | some (.num q) => decide (0 ≤ q ∧ q ≤ 1)
     | _ => false) &&
    (match pyGet fields "analysis" with
     | some (.str _) => true
     | _ => false)
  | _ => false

/-- One upstream call's result: a completion body, a rate-limit error
(`openai.RateLimitError`, optionally carrying a parsed integral
Retry-After header), or any other service error
(`openai.OpenAIError` with its HTTP status, e.g. 428). -/
inductive CallResult where
  | ok (content : String)
  | rateLimit (retryAfter : Option Nat)
  | apiError (status : Nat)

/-- How the Python function terminates: an ordinary return value, or an
uncaught exception propagating to the caller. -/
inductive Outcome where
  | ret (r : Option String)
  | exn
  deriving DecidableEq

/-- One complete execution of `analyze_document_with_openai`: its
termination, how many upstream calls it issued, the sleep durations in
chronological order, and the server state it leaves behind. -/
structure AnalyzeRun where
  outcome : Outcome
  upstreamCalls : Nat
  sleeps : List ℚ
  state : ServerState

/-- `retry_after`: `backoff_factor ** attempt + random.uniform(0, 1)`,
overridden by an integral Retry-After header when the error carries one. -/
def retryDelay (jitter : Nat → ℚ) (attempt : Nat) : Option Nat → ℚ
  | some n => (n : ℚ)
  | none => (2 : ℚ) ^ attempt + jitter attempt

/-- The retry loop `for attempt in range(max_retries)` of
`analyze_document_with_openai`.  `calls n` is the result of the n-th
upstream call, `jitter n` the value drawn by `random.uniform(0, 1)` at
attempt n; `fuel` is the number of loop iterations remaining.  On a valid
response the body is returned; on a schema-invalid response the
"tax-check-failed" tag is created if needed and attached to the document
and `None` is returned; a rate-limit error sleeps
`backoff_factor ** attempt + jitter` (or the server's Retry-After) and
retries; any other service error breaks out and `None` is returned; a body
that is not JSON raises `json.JSONDecodeError`, which no handler catches. -/
def analyzeGo (calls : Nat → CallResult) (jitter : Nat → ℚ) (docId : Nat) :
    ServerState → Nat → Nat → AnalyzeRun
  | st, _, 0 => ⟨.ret none, 0, [], st⟩
  | st, attempt, fuel + 1 =>
    match calls attempt with
    | .ok content =>
      match json_loads content with
      | none => ⟨.exn, 1, [], st⟩
      | some j =>
        if validate_tax_relief j then ⟨.ret (some content), 1, [], st⟩
        else
          match fetch_or_create_tag st "tax-check-failed" with
          | .error _ => ⟨.exn, 1, [], st⟩
          | .ok r =>
            match add_tag_to_document r.state docId r.tagId with
            | .error _ => ⟨.exn, 1, [], r.state⟩
            | .ok st2 => ⟨.ret none, 1, [], st2⟩
    | .rateLimit hdr =>
      let delay : ℚ := retryDelay jitter attempt hdr
      let rest := analyzeGo calls jitter docId st (attempt + 1) fuel
      ⟨rest.outcome, rest.upstreamCalls + 1, delay :: rest.sleeps, rest.state⟩
    | .apiError _ => ⟨.ret none, 1, [], st⟩

/-- `analyze_document_with_openai` with its fixed `max_retries = 5` and
`backoff_factor = 2`. -/
def analyze_document_with_openai (calls : Nat → CallResult) (jitter : Nat → ℚ)
    (st : ServerState) (docId : Nat) : AnalyzeRun :=
  analyzeGo calls jitter docId st 0 5

/-- In every execution the loop issues at most `fuel` upstream calls. -/
theorem analyzeGo_calls_le (calls : Nat → CallResult) (jitter : Nat → ℚ)
    (docId : Nat) : ∀ (fuel attempt : Nat) (st : ServerState),
    (analyzeGo calls jitter docId st attempt fuel).upstreamCalls ≤ fuel := by
  intro fuel
  induction fuel with
  | zero => intro attempt st; exact Nat.le_refl 0
  | succ fuel ih =>
    intro attempt st
    rw [analyzeGo]
    cases hc : calls attempt with
    | ok content =>
      cases hj : json_loads content with
      | none => simp [hj]
      | some j =>
        by_cases hv : validate_tax_relief j = true
        · simp [hj, hv]
        · cases hr : fetch_or_create_tag st "tax-check-failed" with
          | error e => simp [hj, hv, hr]
          | ok r =>
            cases ha : add_tag_to_document r.state docId r.tagId with
            | error e => simp [hj, hv, hr, ha]
            | ok st2 => simp [hj, hv, hr, ha]
    | rateLimit hdr =>
      simpa using Nat.succ_le_succ (ih (attempt + 1) st)
    | apiError s => simp

/-- The chronological sleep durations produced by an all-rate-limited run
with no Retry-After header. -/
def backoffSleeps (jitter : Nat → ℚ) : Nat → Nat → List ℚ
  | _, 0 => []
  | attempt, fuel + 1 =>
    ((2 : ℚ) ^ attempt + jitter attempt) :: backoffSleeps jitter (attempt + 1) fuel

theorem analyzeGo_rate (calls : Nat → CallResult) (jitter : Nat → ℚ) (docId : Nat)
    (hr : ∀ i, calls i = CallResult.rateLimit none) :
    ∀ (fuel attempt : Nat) (st : ServerState),
    analyzeGo calls jitter docId st attempt fuel =
      ⟨.ret none, fuel, backoffSleeps jitter attempt fuel, st⟩ := by
  intro fuel
  induction fuel with
  | zero => intro attempt st; rfl
  | succ fuel ih =>
    intro attempt st
    rw [analyzeGo, hr attempt]
    simp [ih (attempt + 1) st, backoffSleeps, retryDelay]

theorem backoffSleeps_chain (jitter : Nat → ℚ) (hj : ∀ i, 0 ≤ jitter i ∧ jitter i < 1) :
    ∀ (fuel attempt : Nat),
    List.Chain' (fun a b => a ≤ b) (backoffSleeps jitter attempt fuel) := by
  intro fuel
  induction fuel with
  | zero => intro attempt; simp [backoffSleeps]
  | succ fuel ih =>
    intro attempt
    cases fuel with
    | zero => simp [backoffSleeps]
    | succ f2 =>
      rw [backoffSleeps, backoffSleeps, List.chain'_cons]
      constructor
      · have h1 := (hj attempt).2
        have h2 := (hj (attempt + 1)).1
        have h3 : (1 : ℚ) ≤ 2 ^ attempt := one_le_pow₀ (by norm_num)
        have h4 : (2 : ℚ) ^ (attempt + 1) = 2 ^ attempt * 2 := pow_succ 2 attempt
        nlinarith
      · exact ih (attempt + 1)

/-- C2 — Retry/backoff bound: when every upstream call is rate-limited
with no Retry-After header, `analyze_document_with_openai`
(`max_retries = 5`) issues exactly 5 upstream calls and returns `None`,
and the sleeps it chooses are non-decreasing; moreover in every execution
(arbitrary call results) at most 5 upstream calls are issued, so only
rate-limit responses consume a retry attempt. -/
theorem analyze_retry_backoff_bound (calls calls2 : Nat → CallResult)
    (jitter : Nat → ℚ) (st st2 : ServerState) (docId docId2 : Nat)
    (hj : ∀ i, 0 ≤ jitter i ∧ jitter i < 1)
    (hr : ∀ i, calls i = CallResult.rateLimit none) :
    (analyze_document_with_openai calls jitter st docId).outcome = Outcome.ret none ∧
    (analyze_document_with_openai calls jitter st docId).upstreamCalls = 5 ∧
    List.Chain' (fun a b => a ≤ b)
      (analyze_document_with_openai calls jitter st docId).sleeps ∧
    (analyze_document_with_openai calls2 jitter st2 docId2).upstreamCalls ≤ 5 := by
  have hrun := analyzeGo_rate calls jitter docId hr 5 0 st
  refine ⟨?_, ?_, ?_, analyzeGo_calls_le calls2 jitter docId2 5 0 st2⟩
  · rw [analyze_document_with_openai, hrun]
  · rw [analyze_document_with_openai, hrun]
  · rw [analyze_document_with_openai, hrun]
    exact backoffSleeps_chain jitter hj 5 0

/-- Witness for C2: a run whose five calls are all rate-limited with
zero jitter. -/
theorem analyze_retry_backoff_bound_witness :
    (analyze_document_with_openai (fun _ => .rateLimit none) (fun _ => 0)
      ⟨[], [], 1, 25, false⟩ 1).outcome = Outcome.ret none ∧
    (analyze_document_with_openai (fun _ => .rateLimit none) (fun _ => 0)
      ⟨[], [], 1, 25, false⟩ 1).upstreamCalls = 5 ∧
    List.Chain' (fun a b => a ≤ b)
      (analyze_document_with_openai (fun _ => .rateLimit none) (fun _ => 0)
        ⟨[], [], 1, 25, false⟩ 1).sleeps ∧
    (analyze_document_with_openai (fun _ => .rateLimit none) (fun _ => 0)
      ⟨[], [], 1, 25, false⟩ 1).upstreamCalls ≤ 5 :=
  analyze_retry_backoff_bound (fun _ => .rateLimit none) (fun _ => .rateLimit none)
    (fun _ => 0) ⟨[], [], 1, 25, false⟩ ⟨[], [], 1, 25, false⟩ 1 1
    (fun _ => ⟨le_refl 0, by norm_num⟩) (fun _ => rfl)

theorem analyzeGo_rateLimit_step (calls : Nat → CallResult) (jitter : Nat → ℚ)
    (docId : Nat) (st : ServerState) (attempt fuel : Nat) (hdr : Option Nat)
    (hc : calls attempt = CallResult.rateLimit hdr) :
    analyzeGo calls jitter docId st attempt (fuel + 1) =
      ⟨(analyzeGo calls jitter docId st (attempt + 1) fuel).outcome,
       (analyzeGo calls jitter docId st (attempt + 1) fuel).upstreamCalls + 1,
       retryDelay jitter attempt hdr ::
         (analyzeGo calls jitter docId st (attempt + 1) fuel).sleeps,
       (analyzeGo calls jitter docId st (attempt + 1) fuel).state⟩ := by
  rw [analyzeGo, hc]

theorem analyzeGo_apiError (calls : Nat → CallResult) (jitter : Nat → ℚ)
    (docId s : Nat) : ∀ (k fuel attempt : Nat) (st : ServerState), k < fuel →
    (∀ i, i < k → ∃ h, calls (attempt + i) = CallResult.rateLimit h) →
    calls (attempt + k) = CallResult.apiError s →
    (analyzeGo calls jitter docId st attempt fuel).outcome = Outcome.ret none ∧
    (analyzeGo calls jitter docId st attempt fuel).upstreamCalls = k + 1 := by
  intro k
  induction k with
  | zero =>
    intro fuel attempt st hk hpre herr
    cases fuel with
    | zero => omega
    | succ f =>
      rw [Nat.add_zero] at herr
      rw [analyzeGo, herr]
      exact ⟨rfl, rfl⟩
  | succ k ih =>
    intro fuel attempt st hk hpre herr
    cases fuel with
    | zero => omega
    | succ f =>
      obtain ⟨h0, hc0⟩ := hpre 0 (Nat.succ_pos k)
      rw [Nat.add_zero] at hc0
      have hih := ih f (attempt + 1) st (by omega)
        (fun i hi => by
          obtain ⟨h, hcc⟩ := hpre (i + 1) (by omega)
          exact ⟨h, by rw [show attempt + 1 + i = attempt + (i + 1) from by omega]; exact hcc⟩)
        (by rw [show attempt + 1 + k = attempt + (k + 1) from by omega]; exact herr)
      rw [analyzeGo_rateLimit_step calls jitter docId st attempt f h0 hc0]
      exact ⟨hih.1, by rw [show k + 1 + 1 = k + 1 + 1 from rfl]; simp [hih.2]⟩

/-- C5 — Non-rate-limit error termination: if the first `k` upstream calls
are rate-limited (`k < 5`) and call `k` fails with any other service error
(any HTTP status, including the 428 precondition class), the function
stops immediately after that call (`k + 1` upstream calls in total) and
returns `None`; no exception propagates. -/
theorem analyze_non_rate_limit_aborts (calls : Nat → CallResult) (jitter : Nat → ℚ)
    (st : ServerState) (docId s k : Nat) (hk : k < 5)
    (hpre : ∀ i, i < k → ∃ h, calls i = CallResult.rateLimit h)
    (herr : calls k = CallResult.apiError s) :
    (analyze_document_with_openai calls jitter st docId).outcome = Outcome.ret none ∧
    (analyze_document_with_openai calls jitter st docId).upstreamCalls = k + 1 :=
  analyzeGo_apiError calls jitter docId s k 5 0 st hk
    (fun i hi => by simpa using hpre i hi) (by simpa using herr)

/-- Witness for C5: one rate-limit, then a 428. -/
theorem analyze_non_rate_limit_aborts_witness :
    (analyze_document_with_openai
      (fun i => if i = 0 then .rateLimit none else .apiError 428) (fun _ => 0)
      ⟨[], [], 1, 25, false⟩ 1).outcome = Outcome.ret none ∧
    (analyze_document_with_openai
      (fun i => if i = 0 then .rateLimit none else .apiError 428) (fun _ => 0)
      ⟨[], [], 1, 25, false⟩ 1).upstreamCalls = 1 + 1 :=
  analyze_non_rate_limit_aborts
    (fun i => if i = 0 then .rateLimit none else .apiError 428) (fun _ => 0)
    ⟨[], [], 1, 25, false⟩ 1 428 1 (by norm_num)
    (fun i hi => ⟨none, by interval_cases i <;> rfl⟩) rfl

theorem fetch_or_create_tag_spec (st : ServerState) (nm : String)
    (hfail : st.listingFails = false) (hvis : st.tags.length < st.pageSize)
    (hids : ∀ t ∈ st.tags, t.id ≠ 0) (hnext : st.nextId ≠ 0) :
    ∃ r : ResolveResult, fetch_or_create_tag st nm = .ok r ∧ r.tagId ≠ 0 ∧
      (∃ t ∈ r.state.tags, t.id = r.tagId ∧ normName t.name = normName nm) ∧
      r.state.docs = st.docs := by
  have htake : visibleTags st = st.tags :=
    List.take_of_length_le (Nat.le_of_lt hvis)
  by_cases h : truthyOptNat (pyGet (normalizedTags st) (normName nm)) = true
  · cases hv : pyGet (normalizedTags st) (normName nm) with
    | none => rw [hv] at h; simp [truthyOptNat] at h
    | some v =>
      rcases normalizedTags_provenance hv with ⟨t, ht, htv, htk⟩
      rw [hv] at h
      rw [htake] at ht
      refine ⟨⟨v, st, false⟩, ?_, ?_, ⟨t, ht, htv, htk⟩, rfl⟩
      · unfold fetch_or_create_tag
        rw [hv, if_pos h]
        rfl
      · simpa [truthyOptNat] using h
  · have hnone : pyGet (normalizedTags st) (normName nm) = none := by
      cases hv : pyGet (normalizedTags st) (normName nm) with
      | none => rfl
      | some v =>
        rcases normalizedTags_provenance hv with ⟨t, ht, htv, _⟩
        rw [hv] at h
        have : v = 0 := by simpa [truthyOptNat] using h
        rw [htake] at ht
        exact absurd (htv.trans this) (hids t ht)
    have habs : ∀ t ∈ st.tags, normName t.name ≠ normName nm := by
      rw [← htake]
      exact normalizedTags_absent hfail hnone
    have hcs := create_tag_success habs
    refine ⟨⟨st.nextId, ⟨st.tags ++ [⟨st.nextId, nm⟩], st.docs, st.nextId + 1,
        st.pageSize, st.listingFails⟩, true⟩, ?_, hnext,
      ⟨⟨st.nextId, nm⟩, ?_, rfl, rfl⟩, rfl⟩
    · unfold fetch_or_create_tag
      rw [hnone]
      simp only [truthyOptNat, Bool.false_eq_true, if_false]
      rw [hcs]
      simp [hnext]
    · simp

theorem mem_insertSorted (a : Nat) : ∀ l : List Nat, a ∈ insertSorted a l := by
  intro l
  induction l with
  | nil => simp [insertSorted]
  | cons m ms ih =>
    rw [insertSorted]
    by_cases h1 : a < m
    · simp [h1]
    · by_cases h2 : a = m
      · simp [h1, h2]
      · simp only [if_neg h1, if_neg h2]
        exact List.mem_cons_of_mem m ih

/-- C4 (counterexample) — with the "tax-check-failed" tag existing beyond
the first listing page, the single-page fetch misses it, the duplicate
create is rejected, and the exception from `fetch_or_create_tag`
propagates uncaught out of `analyze_document_with_openai` instead of the
call returning null (the repository's
`test_analyze_document_with_openai_invalid` likewise expects a failing
tag helper to raise through this path). -/
theorem analyze_schema_failure_counterexample :
    (analyze_document_with_openai (fun _ => .ok "\x7b\"invalid_field\": \"x\"\x7d")
      (fun _ => 0) ⟨[⟨1, "a"⟩, ⟨2, "tax-check-failed"⟩], [⟨7, []⟩], 3, 1, false⟩
      7).outcome = Outcome.exn ∧
    Outcome.exn ≠ Outcome.ret none :=
  ⟨rfl, by decide⟩

/-- C4 (amended) — Schema-failure side effect: when the first upstream
call returns a body that parses as JSON but fails the result schema, and
the tag listing GET succeeds and shows the whole tag collection with room
for a created tag (the collection fits the fetched page), the call
creates the "tax-check-failed" marker tag if absent, attaches it to the
target document, and returns `None` after exactly one upstream call,
raising no exception.  When the marker tag exists beyond the fetched
page, the rejected duplicate create instead raises uncaught. -/
theorem analyze_schema_failure_tags_document_amended (calls : Nat → CallResult)
    (jitter : Nat → ℚ) (st : ServerState) (docId : Nat) (body : String) (j : Json)
    (doc : ApiDoc) (hc : calls 0 = CallResult.ok body)
    (hparse : json_loads body = some j) (hval : validate_tax_relief j = false)
    (hfail : st.listingFails = false) (hvis : st.tags.length < st.pageSize)
    (hids : ∀ t ∈ st.tags, t.id ≠ 0) (hnext : st.nextId ≠ 0)
    (hdoc : findDoc st docId = some doc) :
    (analyze_document_with_openai calls jitter st docId).outcome = Outcome.ret none ∧
    (analyze_document_with_openai calls jitter st docId).upstreamCalls = 1 ∧
    ∃ tid, tid ≠ 0 ∧
      (∃ t ∈ (analyze_document_with_openai calls jitter st docId).state.tags,
        t.id = tid ∧ normName t.name = "tax-check-failed") ∧
      (∃ d ∈ (analyze_document_with_openai calls jitter st docId).state.docs,
        d.id = doc.id ∧ TagRef.rawId tid ∈ d.tags) := by
  obtain ⟨r, hr, hrid, ⟨t, ht, htid, htk⟩, hrdocs⟩ :=
    fetch_or_create_tag_spec st "tax-check-failed" hfail hvis hids hnext
  have hdoc2 : findDoc r.state docId = some doc := by
    unfold findDoc at hdoc ⊢
    rw [hrdocs]
    exact hdoc
  have hid : (doc.id == docId) = true := by
    have h1 : List.find? (fun d => d.id == docId) r.state.docs = some doc := hdoc2
    simpa using List.find?_some h1
  have hadd : add_tag_to_document r.state docId r.tagId =
      .ok ⟨r.state.tags, r.state.docs.map (fun d =>
        if d.id == docId then
          ⟨d.id, (insertSorted r.tagId (sortedSet (doc.tags.map TagRef.refId))).map
            TagRef.rawId⟩
        else d), r.state.nextId, r.state.pageSize, r.state.listingFails⟩ := by
    unfold add_tag_to_document
    rw [hdoc2]
  have hrun : analyze_document_with_openai calls jitter st docId =
      ⟨Outcome.ret none, 1, [], ⟨r.state.tags, r.state.docs.map (fun d =>
        if d.id == docId then
          ⟨d.id, (insertSorted r.tagId (sortedSet (doc.tags.map TagRef.refId))).map
            TagRef.rawId⟩
        else d), r.state.nextId, r.state.pageSize, r.state.listingFails⟩⟩ := by
    rw [analyze_document_with_openai, show (5 : Nat) = 4 + 1 from rfl, analyzeGo, hc]
    simp only [hparse, hval, hr, hadd, Bool.false_eq_true, if_false]
  refine ⟨by rw [hrun], by rw [hrun], r.tagId, hrid, ?_, ?_⟩
  · refine ⟨t, ?_, htid, ?_⟩
    · rw [hrun]
      exact ht
    · rw [htk]
      decide
  · refine ⟨⟨doc.id, (insertSorted r.tagId (sortedSet (doc.tags.map TagRef.refId))).map
      TagRef.rawId⟩, ?_, rfl, ?_⟩
    · rw [hrun]
      exact List.mem_map.mpr ⟨doc, List.mem_of_find?_eq_some hdoc2, by rw [if_pos hid]⟩
    · exact List.mem_map.mpr ⟨r.tagId, mem_insertSorted r.tagId _, rfl⟩

/-- Witness for C4 (amended): the classifier answers
`{"invalid_field": "x"}`, which parses as JSON but fails the schema, on a
one-page server. -/
theorem analyze_schema_failure_tags_document_amended_witness :
    (analyze_document_with_openai (fun _ => .ok "\x7b\"invalid_field\": \"x\"\x7d")
      (fun _ => 0) ⟨[], [⟨7, []⟩], 1, 25, false⟩ 7).outcome = Outcome.ret none ∧
    (analyze_document_with_openai (fun _ => .ok "\x7b\"invalid_field\": \"x\"\x7d")
      (fun _ => 0) ⟨[], [⟨7, []⟩], 1, 25, false⟩ 7).upstreamCalls = 1 ∧
    ∃ tid, tid ≠ 0 ∧
      (∃ t ∈ (analyze_document_with_openai (fun _ => .ok "\x7b\"invalid_field\": \"x\"\x7d")
          (fun _ => 0) ⟨[], [⟨7, []⟩], 1, 25, false⟩ 7).state.tags,
        t.id = tid ∧ normName t.name = "tax-check-failed") ∧
      (∃ d ∈ (analyze_document_with_openai (fun _ => .ok "\x7b\"invalid_field\": \"x\"\x7d")
          (fun _ => 0) ⟨[], [⟨7, []⟩], 1, 25, false⟩ 7).state.docs,
        d.id = (⟨7, []⟩ : ApiDoc).id ∧ TagRef.rawId tid ∈ d.tags) :=
  analyze_schema_failure_tags_document_amended
    (fun _ => .ok "\x7b\"invalid_field\": \"x\"\x7d")
    (fun _ => 0) ⟨[], [⟨7, []⟩], 1, 25, false⟩ 7 "\x7b\"invalid_field\": \"x\"\x7d"
    (Json.obj [("invalid_field", Json.str "x")]) ⟨7, []⟩
    rfl rfl rfl rfl (by decide) (by simp) (by decide) rfl

/-! ## `merge_duplicates.py` — the duplicate merge engine -/

/-- A correspondent resource. -/
structure Corr where
  id : Nat
  name : String
  deriving DecidableEq

/-- The grouping key `correspondent["name"].strip().lower()`. -/
def normMerge (s : String) : String := pyLower (pyStrip s)

/-- `grouped[key].append(c)` on a `defaultdict(list)`: append to the
existing group, or append a new singleton group (Python dict insertion
order). -/
def groupInsert (g : List (String × List Corr)) (k : String) (c : Corr) :
    List (String × List Corr) :=
  if g.any (fun p => p.1 == k) then
    g.map (fun p => if p.1 == k then (p.1, p.2 ++ [c]) else p)
  else g ++ [(k, [c])]

/-- Group the correspondents by normalized name, keeping both first-seen
key order and within-group arrival order. -/
def groupByNorm (cs : List Corr) : List (String × List Corr) :=
  cs.foldl (fun g c => groupInsert g (normMerge c.name) c) []

/-- Stable insertion into a list sorted by ascending id
(`group.sort(key=lambda c: c["id"])`). -/
def sortInsertById (c : Corr) : List Corr → List Corr
  | [] => [c]
  | d :: ds => if c.id ≤ d.id then c :: d :: ds else d :: sortInsertById c ds

/-- Sort a group of correspondents by ascending id. -/
def sortById (l : List Corr) : List Corr := l.foldr sortInsertById []

/-- Python `str.title()` on the ASCII range: a letter is uppercased when
the previous character is not a letter, lowercased otherwise. -/
def titleGo : Bool → List Char → List Char
  | _, [] => []
  | prevCased, c :: cs =>
    if isAlphaAscii c then
      (if prevCased then lowerAscii c else upperAscii c) :: titleGo true cs
    else c :: titleGo false cs

/-- Python `str.title()`. -/
def pyTitle (s : String) : String := ⟨titleGo false s.data⟩

/-- The externally visible work of one merge run: the document
re-pointings `(documentId, newCorrespondentId)` in issue order, the
correspondent deletions, and the correspondent renames. -/
structure MergeTrace where
  repoints : List (Nat × Nat)
  deletions : List Nat
  renames : List (Nat × String)
  deriving DecidableEq

/-- Process one duplicate group (`len(group) > 1`): sort by id, keep the
lowest id as survivor, re-point every document of every other member to
the survivor, delete the others, and re-title the survivor's name if the
title-cased form differs. -/
def mergeGroup (docsOf : Nat → List Nat) (group : List Corr) : MergeTrace :=
  match sortById group with
  | [] => ⟨[], [], []⟩
  | oldest :: rest =>
    ⟨(rest.map (fun c => (docsOf c.id).map (fun d => (d, oldest.id)))).flatten,
     rest.map (fun c => c.id),
     if oldest.name ≠ pyTitle oldest.name then [(oldest.id, pyTitle oldest.name)] else []⟩

/-- `main` of merge_duplicates.py over the fetched correspondents:
`docsOf i` is the document listing the server returns for correspondent
`i`. -/
def merge_main (docsOf : Nat → List Nat) (corrs : List Corr) : MergeTrace :=
  (groupByNorm corrs).foldl (fun acc kg =>
    if 1 < kg.2.length then
      let tr := mergeGroup docsOf kg.2
      ⟨acc.repoints ++ tr.repoints, acc.deletions ++ tr.deletions,
       acc.renames ++ tr.renames⟩
    else acc) ⟨[], [], []⟩

/-- C3 (counterexample) — on the spec's own input the survivor's final
name is `"Acme "` (Python `str.title()` keeps the trailing space of
`"acme "`), not `"Acme"` as the claim states. -/
theorem merge_canonical_choice_counterexample :
    (merge_main (fun _ => []) [⟨5, "Acme"⟩, ⟨2, "acme "⟩, ⟨9, "ACME"⟩]).renames
      = [(2, "Acme ")] ∧ ("Acme " : String) ≠ "Acme" := by
  constructor
  · decide
  · decide

/-- C3 (amended) — given the correspondents
`[{id:5,"Acme"},{id:2,"acme "},{id:9,"ACME"}]`, the merge engine selects
id 2 as survivor, re-points every document of id 5 and then of id 9 to
id 2, deletes ids 5 and 9, and renames the survivor to `"Acme "` — the
title-cased form of its stored name `"acme "`, which keeps the trailing
space (the claim's `"Acme"` differs in that trailing space). -/
theorem merge_canonical_choice_amended (docsOf : Nat → List Nat) :
    merge_main docsOf [⟨5, "Acme"⟩, ⟨2, "acme "⟩, ⟨9, "ACME"⟩] =
      ⟨(docsOf 5).map (fun d => (d, 2)) ++ (docsOf 9).map (fun d => (d, 2)),
       [5, 9], [(2, "Acme ")]⟩ := by
  have hg : groupByNorm [⟨5, "Acme"⟩, ⟨2, "acme "⟩, ⟨9, "ACME"⟩]
      = [("acme", [⟨5, "Acme"⟩, ⟨2, "acme "⟩, ⟨9, "ACME"⟩])] := by decide
  have hs : sortById [⟨5, "Acme"⟩, ⟨2, "acme "⟩, ⟨9, "ACME"⟩]
      = [⟨2, "acme "⟩, ⟨5, "Acme"⟩, ⟨9, "ACME"⟩] := by decide
  have ht : pyTitle "acme " = "Acme " := by decide
  rw [merge_main, hg]
  simp [mergeGroup, hs, ht]

/-! ## Pagination at the HTTP level

The state-level tag model above treats a listing as returning the whole
collection; this section exposes the page structure of the API to compare
the two fetch styles found in the source. -/

namespace Paged

/-- One page of a paginated listing: its HTTP status, its `results`, and
its `next` link (modelled as the index of the next page, if any). -/
structure Page (α : Type) where
  status : Nat
  results : List α
  next : Option Nat

/-- How a paged fetch ends: the concatenated results, a propagated
`HTTPError` (no partial result is returned), or fuel exhaustion (the
Python loop itself has no bound and would keep following `next`). -/
inductive FetchOut (α : Type) where
  | ok (items : List α)
  | err
  | fuelOut
  deriving DecidableEq

/-- The `while next_url:` loop of `fetch_all_correspondents` and
`fetch_documents_by_correspondent` (merge_duplicates.py): GET the page,
`raise_for_status()` (status ≥ 400 raises, aborting the whole fetch),
extend the accumulator with the page's `results`, follow `next` until it
is absent. -/
def fetchAllGo {α : Type} (pages : Nat → Page α) : Nat → Nat → FetchOut α
  | _, 0 => .fuelOut
  | idx, fuel + 1 =>
    if 400 ≤ (pages idx).status then .err
    else
      match (pages idx).next with
      | none => .ok (pages idx).results
      | some j =>
        match fetchAllGo pages j fuel with
        | .ok rest => .ok ((pages idx).results ++ rest)
        | o => o

/-- `fetch_all_correspondents`: the loop started at the collection URL. -/
def fetch_all_correspondents {α : Type} (pages : Nat → Page α) (fuel : Nat) :
    FetchOut α :=
  fetchAllGo pages 0 fuel

/-- `fetch_tags` (api_helpers.py) at the HTTP level: a single GET of
`/api/tags/` — the first page only, with no `next` following — building
the name→id dict from that page's `results`; any exception (including an
HTTP error status) is caught and the empty dict is returned. -/
def fetch_tags (pages : Nat → Page (String × Nat)) : List (String × Nat) :=
  if 400 ≤ (pages 0).status then [] else pyDict (pages 0).results

theorem fetchAll_chain_ok {α : Type} (pages : Nat → Page α) :
    ∀ (idxs : List Nat) (start : Nat), idxs.head? = some start →
    List.Chain' (fun i j => (pages i).next = some j) idxs →
    (∀ i ∈ idxs, (pages i).status < 400) →
    (∀ l, idxs.getLast? = some l → (pages l).next = none) →
    fetchAllGo pages start idxs.length =
      .ok ((idxs.map (fun i => (pages i).results)).flatten) := by
  intro idxs
  induction idxs with
  | nil => intro start h; simp at h
  | cons i rest ih =>
    intro start hhead hchain hok hlast
    have hi : i = start := by simpa using hhead
    subst hi
    cases rest with
    | nil =>
      have hstat := hok i (List.mem_cons_self i [])
      have hnext := hlast i rfl
      show fetchAllGo pages i 1 = _
      rw [fetchAllGo, if_neg (by omega), hnext]
      simp
    | cons j rest2 =>
      have hstat := hok i (List.mem_cons_self i (j :: rest2))
      have hnext : (pages i).next = some j := (List.chain'_cons'.mp hchain).1 j rfl
      have hih := ih j rfl (List.chain'_cons'.mp hchain).2
        (fun x hx => hok x (List.mem_cons_of_mem i hx))
        (fun l hl => hlast l (by rw [List.getLast?_cons_cons]; exact hl))
      show fetchAllGo pages i ((j :: rest2).length + 1) = _
      rw [fetchAllGo, if_neg (by omega), hnext]
      have hih2 : fetchAllGo pages j (rest2.length + 1) =
          FetchOut.ok (List.map (fun i => (pages i).results) (j :: rest2)).flatten := hih
      simp [hih2]

theorem fetchAll_chain_err {α : Type} (pages : Nat → Page α) :
    ∀ (idxs : List Nat) (start : Nat), idxs.head? = some start →
    List.Chain' (fun i j => (pages i).next = some j) idxs →
    (∀ i ∈ idxs.dropLast, (pages i).status < 400) →
    (∀ l, idxs.getLast? = some l → 400 ≤ (pages l).status) →
    fetchAllGo pages start idxs.length = .err := by
  intro idxs
  induction idxs with
  | nil => intro start h; simp at h
  | cons i rest ih =>
    intro start hhead hchain hok hlast
    have hi : i = start := by simpa using hhead
    subst hi
    cases rest with
    | nil =>
      have hstat := hlast i rfl
      show fetchAllGo pages i 1 = _
      rw [fetchAllGo, if_pos hstat]
    | cons j rest2 =>
      have hstat : (pages i).status < 400 := by
        refine hok i ?_
        rw [show (i :: j :: rest2).dropLast = i :: (j :: rest2).dropLast from rfl]
        exact List.mem_cons_self _ _
      have hnext : (pages i).next = some j := (List.chain'_cons'.mp hchain).1 j rfl
      have hih := ih j rfl (List.chain'_cons'.mp hchain).2
        (fun x hx => hok x (by
          rw [show (i :: j :: rest2).dropLast = i :: (j :: rest2).dropLast from rfl]
          exact List.mem_cons_of_mem i hx))
        (fun l hl => hlast l (by rw [List.getLast?_cons_cons]; exact hl))
      show fetchAllGo pages i ((j :: rest2).length + 1) = _
      rw [fetchAllGo, if_neg (by omega), hnext]
      have hih2 : fetchAllGo pages j (rest2.length + 1) = FetchOut.err := hih
      simp [hih2]

end Paged

/-- C6 (amended) — the merge engine's paged fetchers
(`fetch_all_correspondents`, and `fetch_documents_by_correspondent` which
runs the same loop) follow the response-supplied `next` pointer until it
is absent, return the concatenation of all `results` arrays in response
order, and abort with a propagated error and no partial result on any
non-success status; but `fetch_tags` in api_helpers.py issues a single
request — returning only the first page's tags — and returns an empty
mapping instead of propagating on a non-success status. -/
theorem paged_fetch_amended (pages : Nat → Paged.Page Corr)
    (pagesT : Nat → Paged.Page (String × Nat)) (idxs : List Nat)
    (hhead : idxs.head? = some 0)
    (hchain : List.Chain' (fun i j => (pages i).next = some j) idxs) :
    ((∀ i ∈ idxs, (pages i).status < 400) →
      (∀ l, idxs.getLast? = some l → (pages l).next = none) →
      Paged.fetch_all_correspondents pages idxs.length =
        .ok ((idxs.map (fun i => (pages i).results)).flatten)) ∧
    ((∀ i ∈ idxs.dropLast, (pages i).status < 400) →
      (∀ l, idxs.getLast? = some l → 400 ≤ (pages l).status) →
      Paged.fetch_all_correspondents pages idxs.length = .err) ∧
    ((pagesT 0).status < 400 → Paged.fetch_tags pagesT = pyDict (pagesT 0).results) ∧
    (400 ≤ (pagesT 0).status → Paged.fetch_tags pagesT = []) := by
  refine ⟨fun hok hlast => Paged.fetchAll_chain_ok pages idxs 0 hhead hchain hok hlast,
    fun hok hlast => Paged.fetchAll_chain_err pages idxs 0 hhead hchain hok hlast,
    fun h => ?_, fun h => ?_⟩
  · rw [Paged.fetch_tags, if_neg (by omega)]
  · rw [Paged.fetch_tags, if_pos h]

/-- C6 (counterexample) — with the tag collection spread over two pages,
`fetch_tags` returns only the first page's tags (the loop-following fetch
returns both), and on an HTTP 500 it returns the empty dict instead of
propagating an error. -/
theorem paged_fetch_counterexample :
    Paged.fetch_tags
      (fun i => if i = 0 then ⟨200, [("a", 1)], some 1⟩ else ⟨200, [("b", 2)], none⟩)
      = [("a", 1)] ∧
    Paged.fetchAllGo
      (fun i => if i = 0 then ⟨200, [("a", 1)], some 1⟩ else ⟨200, [("b", 2)], none⟩) 0 2
      = .ok [("a", 1), ("b", 2)] ∧
    ([("a", 1)] : List (String × Nat)) ≠ [("a", 1), ("b", 2)] ∧
    Paged.fetch_tags (fun _ => ⟨500, [("a", 1)], none⟩) = [] := by
  refine ⟨by decide, by decide, by decide, by decide⟩

/-- Witness for C6 (amended) at a concrete two-page chain. -/
theorem paged_fetch_amended_witness :
    Paged.fetch_all_correspondents
      (fun i => if i = 0 then (⟨200, [⟨1, "A"⟩], some 1⟩ : Paged.Page Corr) else ⟨200, [⟨2, "B"⟩], none⟩)
      2 = .ok [⟨1, "A"⟩, ⟨2, "B"⟩] := by
  have h := (paged_fetch_amended
    (fun i => if i = 0 then (⟨200, [⟨1, "A"⟩], some 1⟩ : Paged.Page Corr) else ⟨200, [⟨2, "B"⟩], none⟩)
    (fun _ => ⟨200, [], none⟩) [0, 1] rfl (by simp)).1
    (by decide) (by decide)
  simpa using h

/-! ## `clean_fields` (post.py)

Numeric values are modelled exactly over `ℚ`; the concrete values these
claims touch are exactly representable as doubles, so the `float`
semantics of the source coincide with the rational model on them. -/

/-- Custom-field metadata as used by `clean_fields` (`{"id", "data_type"}`). -/
structure FieldMeta where
  id : Nat
  data_type : String
  deriving DecidableEq

/-- The character class kept by `re.sub(r"[^\d,.-]", "", ·)`:
digit, comma, period or minus. -/
def isMoneyKeep (c : Char) : Bool := c.isDigit || c = ',' || c = '.' || c = '-'

/-- `re.sub(r"[^\d,.-]", "", value).replace(",", ".")`. -/
def moneyStrip (s : String) : String :=
  ⟨(s.data.filter isMoneyKeep).map (fun c => if c = ',' then '.' else c)⟩

/-- `value.replace(",", "").replace(" ", "")` — the argument handed to
`float(...)`. -/
def floatArg (s : String) : String :=
  ⟨s.data.filter (fun c => c ≠ ',' && c ≠ ' ')⟩

/-- Python `float(...)` on the character set reachable here (digits, one
optional period, one optional leading sign): the sign and the integer and
fractional digit runs of the accepted decimal; `none` is a `ValueError`. -/
def pyFloatDecimal (s : String) : Option (Bool × List Char × List Char) :=
  let (neg, rest) : Bool × List Char :=
    match s.data with
    | '-' :: r => (true, r)
    | '+' :: r => (false, r)
    | r => (false, r)
  if rest.isEmpty then none
  else if rest.all (fun c => c.isDigit || c = '.') && rest.count '.' ≤ 1 &&
      rest.any Char.isDigit then
    some (neg, rest.takeWhile (fun c => c ≠ '.'),
      (rest.dropWhile (fun c => c ≠ '.')).drop 1)
  else none

/-- The exact number denoted by a parsed decimal: `±(I + F / 10^k)`.
The concrete values these claims touch are exactly representable as
doubles, so this coincides with the source's `float` value on them. -/
def decimalVal : Bool × List Char × List Char → ℚ
  | (neg, ip, fp) =>
    (if neg then -1 else 1) *
      ((digitsVal ip : ℚ) + (digitsVal fp : ℚ) / (10 : ℚ) ^ fp.length)

/-- Round to the nearest integer, ties to even (the rounding used by
Python's `round`). -/
def roundHalfEven (q : ℚ) : ℤ :=
  let f := ⌊q⌋
  let r := q - f
  if r < 1 / 2 then f
  else if 1 / 2 < r then f + 1
  else if f % 2 = 0 then f else f + 1

/-- `roundHalfEven (M / D)` in integer arithmetic (floor division and
floor remainder), executable without rational normalization. -/
def rheIntDiv (M : ℤ) (D : ℕ) : ℤ :=
  let q := M.fdiv D
  let r := M.fmod D
  if 2 * r < D then q
  else if (D : ℤ) < 2 * r then q + 1
  else if q % 2 = 0 then q else q + 1

/-- `round(value, 2) * 100` as an exact integer, for the parsed decimal
`±(I + F / 10^k)`: half-even rounding of `±(I*100*10^k + F*100) / 10^k`. -/
def moneyCents : Bool × List Char × List Char → ℤ
  | (neg, ip, fp) =>
    let k := fp.length
    let N : ℤ := (digitsVal ip * 100 * 10 ^ k + digitsVal fp * 100 : ℕ)
    rheIntDiv (if neg then -N else N) (10 ^ k)

/-- The integer implementation agrees with half-even rounding of the
exact quotient. -/
theorem rheIntDiv_eq (M : ℤ) (D : ℕ) (hD : 0 < D) :
    rheIntDiv M D = roundHalfEven ((M : ℚ) / (D : ℚ)) := by
  have hD' : (0 : ℚ) < (D : ℚ) := by exact_mod_cast hD
  have hqr : M.fmod D + (D : ℤ) * M.fdiv D = M := Int.fmod_add_fdiv M D
  have hr0 : (0 : ℤ) ≤ M.fmod D := Int.fmod_nonneg' M (by exact_mod_cast hD)
  have hrD : M.fmod D < (D : ℤ) := Int.fmod_lt_of_pos M (by exact_mod_cast hD)
  set q := M.fdiv (D : ℤ) with hqdef
  set r := M.fmod (D : ℤ) with hrdef
  have hM : (M : ℚ) = (r : ℚ) + (D : ℚ) * (q : ℚ) := by exact_mod_cast hqr.symm
  have hr0' : (0 : ℚ) ≤ (r : ℚ) := by exact_mod_cast hr0
  have hrD' : (r : ℚ) < (D : ℚ) := by exact_mod_cast hrD
  have hfloor : ⌊(M : ℚ) / (D : ℚ)⌋ = q := by
    rw [Int.floor_eq_iff]
    constructor
    · rw [le_div_iff hD', hM]
      nlinarith
    · rw [div_lt_iff hD', hM]
      nlinarith
  have hfract : (M : ℚ) / (D : ℚ) - (q : ℚ) = (r : ℚ) / (D : ℚ) := by
    field_simp [hM]
  have hc1 : ((r : ℚ) / (D : ℚ) < 1 / 2) ↔ (2 * r < (D : ℤ)) := by
    rw [div_lt_div_iff hD' (by norm_num)]
    constructor
    · intro h
      exact_mod_cast (by linarith : (2 : ℚ) * (r : ℚ) < (D : ℚ))
    · intro h
      have : (2 : ℚ) * (r : ℚ) < (D : ℚ) := by exact_mod_cast h
      linarith
  have hc2 : ((1 : ℚ) / 2 < (r : ℚ) / (D : ℚ)) ↔ ((D : ℤ) < 2 * r) := by
    rw [div_lt_div_iff (by norm_num) hD']
    constructor
    · intro h
      exact_mod_cast (by linarith : (D : ℚ) < (2 : ℚ) * (r : ℚ))
    · intro h
      have : (D : ℚ) < (2 : ℚ) * (r : ℚ) := by exact_mod_cast h
      linarith
  simp only [rheIntDiv, roundHalfEven]
  rw [hfloor, hfract]
  simp only [hc1, hc2]

/-- The cents computation is exactly `round(value, 2) * 100` for the
parsed decimal value. -/
theorem moneyCents_eq (parts : Bool × List Char × List Char) :
    moneyCents parts = roundHalfEven (decimalVal parts * 100) := by
  obtain ⟨neg, ip, fp⟩ := parts
  have hD : 0 < (10 : ℕ) ^ fp.length := pow_pos (by norm_num) _
  rw [moneyCents, decimalVal, rheIntDiv_eq _ _ hD]
  congr 1
  have hden : ((10 : ℕ) ^ fp.length : ℚ) ≠ 0 := by positivity
  cases neg with
  | true =>
    rw [if_pos rfl, if_pos rfl]
    field_simp
    ring
  | false =>
    rw [if_neg (by decide), if_neg (by decide)]
    field_simp
    ring

/-- `str(round(x, 2))` for the exactly-rounded value `n / 100`: Python
prints the shortest decimal form, always with at least one fractional
digit. -/
def centsRepr (n : ℤ) : String :=
  let sign := if n < 0 then "-" else ""
  let m := n.natAbs
  let ip := m / 100
  let fr := m % 100
  sign ++ toString ip ++ "." ++
    (if fr % 10 = 0 then toString (fr / 10)
     else (if fr < 10 then "0" else "") ++ toString fr)

/-- The whole monetary branch of `clean_fields`:
`str(round(float(cleaned), 2))`, or `none` on `ValueError`
(`moneyCents_eq` below ties the integer rounding to `roundHalfEven` of
the parsed value). -/
def moneyClean (v : String) : Option String :=
  match pyFloatDecimal (floatArg (moneyStrip v)) with
  | none => none
  | some parts => some (centsRepr (moneyCents parts))

/-- A 1-2 digit field of `strptime` (`%d`, `%m`) with its value range. -/
def parseNum2 (s : String) (lo hi : Nat) : Option Nat :=
  if s.data.all Char.isDigit && 1 ≤ s.data.length && s.data.length ≤ 2 then
    let v := digitsVal s.data
    if lo ≤ v && v ≤ hi then some v else none
  else none

/-- An exactly-n-digit numeric field of `strptime` (`%Y`, `%y`). -/
def parseNumExact (s : String) (w : Nat) : Option Nat :=
  if s.data.all Char.isDigit && s.data.length = w then some (digitsVal s.data) else none

/-- Gregorian leap year. -/
def isLeap (y : Nat) : Bool := y % 4 = 0 && (y % 100 ≠ 0 || y % 400 = 0)

/-- Days in a month. -/
def daysInMonth (y m : Nat) : Nat :=
  if m = 2 then (if isLeap y then 29 else 28)
  else if m = 4 || m = 6 || m = 9 || m = 11 then 30
  else 31

/-- `strptime`'s case-insensitive month abbreviation (`%b`). -/
def monthAbbrev (s : String) : Option Nat :=
  let t := pyLower s
  let names := ["jan", "feb", "mar", "apr", "may", "jun",
                "jul", "aug", "sep", "oct", "nov", "dec"]
  match names.indexOf? t with
  | some i => some (i + 1)
  | none => none

/-- `datetime.strptime(value, "%d" sep "%m" sep "%Y")` followed by the
date's own day-of-month validation. -/
def parseDateSep (sep : String) (v : String) : Option (Nat × Nat × Nat) :=
  match v.splitOn sep with
  | [ds, ms, ys] =>
    match parseNum2 ds 1 31, parseNum2 ms 1 12, parseNumExact ys 4 with
    | some d, some m, some y =>
      if d ≤ daysInMonth y m then some (y, m, d) else none
    | _, _, _ => none
  | _ => none

/-- `datetime.strptime(value, "%d %b %y")` (two-digit years 00-68 map to
2000-2068, 69-99 to 1969-1999). -/
def parseDateAbbrev (v : String) : Option (Nat × Nat × Nat) :=
  match v.splitOn " " with
  | [ds, ms, ys] =>
    match parseNum2 ds 1 31, monthAbbrev ms, parseNumExact ys 2 with
    | some d, some m, some yy =>
      let y := if yy ≤ 68 then 2000 + yy else 1900 + yy
      if d ≤ daysInMonth y m then some (y, m, d) else none
    | _, _, _ => none
  | _ => none

/-- Left-pad a number with zeros to the given width. -/
def padNum (w n : Nat) : String :=
  ⟨List.replicate (w - (toString n).length) '0' ++ (toString n).data⟩

/-- `.strftime("%Y-%m-%d")`. -/
def formatDate : Nat × Nat × Nat → String
  | (y, m, d) => padNum 4 y ++ "-" ++ padNum 2 m ++ "-" ++ padNum 2 d

/-- The date branch of `clean_fields`: the first matching format of
`["%d.%m.%Y", "%d/%m/%Y", "%d %b %y"]` wins; no match is a `ValueError`. -/
def dateClean (v : String) : Option String :=
  match parseDateSep "." v with
  | some d => some (formatDate d)
  | none =>
    match parseDateSep "/" v with
    | some d => some (formatDate d)
    | none =>
      match parseDateAbbrev v with
      | some d => some (formatDate d)
      | none => none

/-- `clean_fields` (post.py): strip each value, look up its metadata
(unknown fields are skipped), normalize `date` and `monetary` values
(dropping the field on a `ValueError`), and pass other types through. -/
def clean_fields (fields : List (String × String))
    (field_meta : List (String × FieldMeta)) : List (String × String) :=
  fields.foldl (fun cleaned kv =>
    let value := pyStrip kv.2
    match pyGet field_meta kv.1 with
    | none => cleaned
    | some m =>
      if m.data_type = "date" then
        match dateClean value with
        | some v2 => pyDictInsert cleaned kv.1 v2
        | none => cleaned
      else if m.data_type = "monetary" then
        match moneyClean value with
        | some v2 => pyDictInsert cleaned kv.1 v2
        | none => cleaned
      else pyDictInsert cleaned kv.1 value) []

/-- C9 — Monetary normalization: a `monetary` field `"1234,50"` is
normalized to the string `"1234.5"` (strip, decimal-comma to period,
parse, round to 2 places, shortest print); and any `monetary` value whose
cleaned form fails to parse as a number is dropped from the cleaned
output instead of raising. -/
theorem clean_fields_monetary (k v : String) (m : FieldMeta)
    (hm : m.data_type = "monetary")
    (hfail : pyFloatDecimal (floatArg (moneyStrip (pyStrip v))) = none) :
    clean_fields [("amount", "1234,50")] [("amount", ⟨1, "monetary"⟩)]
      = [("amount", "1234.5")] ∧
    clean_fields [(k, v)] [(k, m)] = [] := by
  constructor
  · decide
  · rw [clean_fields]
    simp only [List.foldl_cons, List.foldl_nil]
    have hget : pyGet [(k, m)] k = some m := by
      unfold pyGet
      rw [List.find?_cons_of_pos _ (by simp)]
      rfl
    rw [hget]
    simp [hm, moneyClean, hfail]

/-- Witness for C9: the unparsable monetary value `"12.34.56"` is
dropped. -/
theorem clean_fields_monetary_witness :
    clean_fields [("amount", "1234,50")] [("amount", ⟨1, "monetary"⟩)]
      = [("amount", "1234.5")] ∧
    clean_fields [("total", "12.34.56")] [("total", ⟨2, "monetary"⟩)] = [] :=
  clean_fields_monetary "total" "12.34.56" ⟨2, "monetary"⟩ rfl (by decide)

end Paperless
